import Mathlib

/-!
Shallow embedding of the 2048 game engine (`matrix.py`, `direction.py`).

Python machine integers are unbounded and all values handled by the engine
are non-negative, so cell values and the score are modelled as `Nat`.
Fallible operations (Python list indexing, which raises `IndexError` when
out of range) are modelled in `Option`: a `none` result corresponds to an
uncaught exception.  The random choices of `random.choice` /
`random.choices` in `add_new_value` are modelled by explicit parameters
(`pick`, an arbitrary index into the list of free cells, and `four`,
whether the spawned tile is a 4 instead of a 2).
-/

namespace G2048


/-- `Cell` from `matrix.py`: a matrix cell with its value and per-move
flags (dataclass defaults: `value = 0`, all flags `False`). -/

structure Cell where
  value : Nat := 0
  added : Bool := false
  moved : Bool := false
  new : Bool := false
deriving DecidableEq, Repr, Inhabited

/-- `Cell.__iadd__`: in-place add.  Sets `added` when both the prior value
and the amount are non-zero, always sets `moved`, and adds the amount to
the value.  (The Python method accepts an `int` or a `Cell`; call sites in
the engine always add a cell's value, so the argument is the `Nat` added.) -/

def Cell.iadd (c : Cell) (amt : Nat) : Cell :=
  { c with
    added := if c.value ≠ 0 ∧ amt ≠ 0 then true else c.added
    moved := true
    value := c.value + amt }

/-- `Direction` from `direction.py`. -/

inductive Direction where
  | UP
  | DOWN
  | LEFT
  | RIGHT
deriving DecidableEq, Repr

/-- Python's `zip(*ls)` on a list of lists: truncates at the shortest list;
returns `[]` as soon as some list is empty (or there are no lists). -/

def pyZip [Inhabited α] : List (List α) → List (List α)
  | [] => []
  | a :: rest =>
    if _h : (a :: rest).all (fun l => !l.isEmpty) then
      ((a :: rest).map (·.headD default)) :: pyZip ((a :: rest).map List.tail)
    else []
termination_by ls => (ls.headD []).length
decreasing_by
  simp only [List.map_cons, List.headD_cons, List.all_cons, Bool.and_eq_true,
    Bool.not_eq_true'] at *
  cases a with
  | nil => simp at _h
  | cons b bs => simp

/-- `Matrix.rotate_cw`: `list(zip(*reversed(self.matrix)))`. -/

def rotate_cw (g : List (List Cell)) : List (List Cell) :=
  pyZip g.reverse

/-- `Matrix.rotate_ccw`:
`[list(element)[::-1] for element in zip(*reversed(self.matrix))][::-1]`. -/

def rotate_ccw (g : List (List Cell)) : List (List Cell) :=
  ((pyZip g.reverse).map List.reverse).reverse

/-- `Matrix` from `matrix.py`: dimensions, the cell grid, and the score.
(`width` and `height` are fixed at construction; the rotations mutate
`matrix` without updating them.) -/

structure Matrix where
  width : Nat
  height : Nat
  matrix : List (List Cell)
  score : Nat
deriving DecidableEq, Repr

/-- Read the cell `g[y][x]`; `none` models Python's `IndexError`. -/

def cellAt? (g : List (List Cell)) (x y : Nat) : Option Cell :=
  g[y]?.bind (·[x]?)

/-- `Matrix.find_value`: row-major list of the `(x, y)` coordinates of the
cells whose value is `v` (`Cell.__eq__` compares values). -/

def find_value (m : Matrix) (v : Nat) : List (Nat × Nat) :=
  (m.matrix.enum.map (fun yr =>
    yr.2.enum.filterMap (fun xc =>
      if xc.2.value = v then some (xc.1, yr.1) else none))).flatten

/-- `Matrix.add_new_value`: if there is a free (zero) cell, set a chosen
free cell's value to 2 or 4 and mark it `new`.  `pick` selects the cell
(`random.choice`), `four` selects the value (`random.choices((2, 4), (9, 1))`). -/

def add_new_value (m : Matrix) (pick : Nat) (four : Bool) : Matrix :=
  let free := find_value m 0
  if free.isEmpty then m
  else
    let xy := free.getD (pick % free.length) (0, 0)
    let row := m.matrix.getD xy.2 []
    let c := row.getD xy.1 default
    { m with
      matrix := m.matrix.set xy.2
        (row.set xy.1 { c with value := if four then 4 else 2, new := true }) }

/-- `Matrix.get_neighbors`: values of the N, S, E, W neighbors of `(x, y)`,
`0` substituted for each out-of-bounds side.  The guarded reads can still
raise for coordinates outside the grid, hence `Option`. -/

def get_neighbors (m : Matrix) (x y : Nat) : Option (List Nat) := do
  let n0 ← if 0 < y then (cellAt? m.matrix x (y - 1)).map (·.value) else some 0
  let n1 ← if y < m.height - 1 then (cellAt? m.matrix x (y + 1)).map (·.value) else some 0
  let n2 ← if x < m.width - 1 then (cellAt? m.matrix (x + 1) y).map (·.value) else some 0
  let n3 ← if 0 < x then (cellAt? m.matrix (x - 1) y).map (·.value) else some 0
  some [n0, n1, n2, n3]

/-- The double loop of `Matrix.is_full`, over the coordinates
`(x, y)` for `y in range(height)`, `x in range(width)`. -/

def is_full_loop (m : Matrix) : List (Nat × Nat) → Option Bool
  | [] => some true
  | (x, y) :: rest =>
    match cellAt? m.matrix x y with
    | none => none
    | some c =>
      if c.value = 0 then is_full_loop m rest
      else
        match get_neighbors m x y with
        | none => none
        | some nbs =>
          if c.value ∈ nbs then some false else is_full_loop m rest

/-- `Matrix.is_full`: `False` if some cell is zero, `False` if some cell's
value occurs among its neighbors, `True` otherwise. -/

def is_full (m : Matrix) : Option Bool :=
  if (find_value m 0).isEmpty then
    is_full_loop m
      ((List.range m.height).flatMap (fun y => (List.range m.width).map (fun x => (x, y))))
  else some false

/-- `Matrix.prepare_cells_to_move`: clear every cell's flags. -/

def prepare_cells_to_move (g : List (List Cell)) : List (List Cell) :=
  g.map (List.map (fun c => { c with added := false, moved := false, new := false }))

/-- `Matrix.has_moved`: whether any cell's `moved` flag is set. -/

def has_moved (m : Matrix) : Bool :=
  m.matrix.any (·.any (·.moved))

/-- `Matrix.move_cell_to_right` on the row being processed (the method only
touches row `y`; `w` is the stored `self.width`, `score` the running score).
Reads of `row[x + 1]` and `row[x]` go through `List.get?`:
an out-of-range read is Python's `IndexError`, i.e. `none`. -/

def move_cell_to_right (w : Nat) (x : Nat) (row : List Cell) (score : Nat) :
    Option (List Cell × Nat) :=
  match row[x + 1]?, row[x]? with
  | some target, some src =>
    if target.value = 0 ∨
        (src.added = false ∧ target.added = false ∧ target.value = src.value) then
      let t := target.iadd src.value
      let score' := if t.added then score + t.value else score
      let row' := (row.set (x + 1) t).set x default
      if w - 1 ≤ x + 1 then some (row', score')
      else move_cell_to_right w (x + 1) row' score'
    else some (row, score)
  | _, _ => none
termination_by w - 1 - x
decreasing_by omega

/-- The inner loop of `Matrix.move` over one row: for each `x` in the given
index list (the source iterates `reversed(range(width))`), skip zero cells
and the last column, otherwise call `move_cell_to_right`.  The cell is read
before the guard, exactly as in `self.matrix[y][x] == 0 or x >= self.width - 1`. -/

def move_row_pass (w : Nat) : List Nat → List Cell → Nat → Option (List Cell × Nat)
  | [], row, score => some (row, score)
  | x :: xs, row, score =>
    match row[x]? with
    | none => none
    | some c =>
      if c.value = 0 ∨ w - 1 ≤ x then move_row_pass w xs row score
      else
        match move_cell_to_right w x row score with
        | none => none
        | some (row', s') => move_row_pass w xs row' s'

/-- The outer loop of `Matrix.move` over `y in range(height)`. -/

def move_all_rows (w : Nat) :
    List Nat → List (List Cell) → Nat → Option (List (List Cell) × Nat)
  | [], g, s => some (g, s)
  | y :: ys, g, s =>
    match g[y]? with
    | none => none
    | some row =>
      match move_row_pass w ((List.range w).reverse) row s with
      | none => none
      | some (row', s') => move_all_rows w ys (g.set y row') s'

/-- The rotation `Matrix.move` applies before processing. -/

def rot_forward (d : Direction) (g : List (List Cell)) : List (List Cell) :=
  match d with
  | .UP => rotate_cw g
  | .DOWN => rotate_ccw g
  | .LEFT => rotate_cw (rotate_cw g)
  | .RIGHT => g

/-- The rotation `Matrix.move` applies after processing. -/

def rot_backward (d : Direction) (g : List (List Cell)) : List (List Cell) :=
  match d with
  | .UP => rotate_ccw g
  | .DOWN => rotate_cw g
  | .LEFT => rotate_ccw (rotate_ccw g)
  | .RIGHT => g

/-- `Matrix.move` up to (but not including) the spawn step: clear flags,
rotate, process every row, rotate back. -/

def move_phase (m : Matrix) (d : Direction) : Option Matrix :=
  let g1 := rot_forward d (prepare_cells_to_move m.matrix)
  match move_all_rows m.width (List.range m.height) g1 m.score with
  | none => none
  | some (g2, s2) => some { m with matrix := rot_backward d g2, score := s2 }

/-- `Matrix.move`: the phase above, then `add_new_value` iff some cell moved. -/

def move (m : Matrix) (d : Direction) (pick : Nat) (four : Bool) : Option Matrix :=
  match move_phase m d with
  | none => none
  | some m2 => some (if has_moved m2 then add_new_value m2 pick four else m2)

/-- `Matrix.__init__`: an all-empty `height × width` grid, two spawns,
score 0 (the spawns do not touch the score). -/

def Matrix.init (w h : Nat) (p1 p2 : Nat) (f1 f2 : Bool) : Matrix :=
  let m0 : Matrix := ⟨w, h, List.replicate h (List.replicate w {}), 0⟩
  add_new_value (add_new_value m0 p1 f1) p2 f2

/-! ### Derived notions used to state and prove the claims -/

/-- The cell of `row` at index `i` (the default cell when out of range). -/
def cellD (row : List Cell) (i : Nat) : Cell := row.getD i default

/-- Number of non-empty (non-zero) cells of a row. -/
def nzCount (row : List Cell) : Nat := row.countP (fun c => decide (c.value ≠ 0))

/-- Number of cells of a row whose `added` flag is set. -/
def addedCount (row : List Cell) : Nat := row.countP (·.added)

/-- Sum of the values of the cells of a row whose `added` flag is set. -/
def sumAdded (row : List Cell) : Nat :=
  (row.map (fun c => if c.added then c.value else 0)).sum

/-- Some cell of the row has its `moved` flag set. -/
def rowMoved (row : List Cell) : Bool := row.any (·.moved)

/-- Positions `≥ a` of the row are compacted against the right wall:
beyond `a`, a non-zero cell is never followed by a zero cell. -/
def Comp (a : Nat) (row : List Cell) : Prop :=
  ∀ i j, a ≤ i → i < j → j < row.length →
    (cellD row i).value ≠ 0 → (cellD row j).value ≠ 0

/-- Every cell with its `added` flag set lies at a position `≥ a` and is
non-zero. -/
def FlagsIn (a : Nat) (row : List Cell) : Prop :=
  ∀ i, (cellD row i).added = true → a ≤ i ∧ (cellD row i).value ≠ 0

/-- A rectangular list of rows, all of width `w`. -/
def Rect (g : List (List α)) (w : Nat) : Prop := ∀ row ∈ g, row.length = w

/-- A well-formed `Matrix`: the stored grid is rectangular and its
dimensions agree with the stored `width` and `height`. -/
def WF (m : Matrix) : Prop := m.matrix.length = m.height ∧ Rect m.matrix m.width

/-- The grid entry at row `i`, column `j` (defaults when out of range). -/
def getD2 [Inhabited α] (g : List (List α)) (i j : Nat) : α :=
  (g.getD i []).getD j default

/-- Post-condition of `move_cell_to_right w x`: the row stays the same
length; positions `≥ x` are compacted; flags stay at positions `> x` on
non-zero cells; cells that already carried the `added` flag are untouched;
non-empty cells plus flags are conserved; the score grows exactly by the
values of the new flags; either nothing happened or some `moved` flag is
set; a move without a merge forces an empty cell; positions `< x` are
untouched. -/
def MPost (w x : Nat) (row row' : List Cell) (s s' : Nat) : Prop :=
  row'.length = row.length ∧
  Comp x row' ∧
  FlagsIn (x + 1) row' ∧
  (∀ i, (cellD row i).added = true → cellD row' i = cellD row i) ∧
  nzCount row' + addedCount row' = nzCount row + addedCount row ∧
  addedCount row ≤ addedCount row' ∧
  s' + sumAdded row = s + sumAdded row' ∧
  ((row' = row ∧ s' = s) ∨ rowMoved row' = true) ∧
  (addedCount row' = addedCount row ∧ rowMoved row' = true ∧ rowMoved row = false →
    nzCount row' < w) ∧
  (∀ i < x, cellD row' i = cellD row i)

/-- Post-condition of the whole right-compaction pass over one row. -/
def RPost (w : Nat) (row row' : List Cell) (s s' : Nat) : Prop :=
  row'.length = row.length ∧
  Comp 0 row' ∧
  FlagsIn 0 row' ∧
  (∀ i, (cellD row i).added = true → cellD row' i = cellD row i) ∧
  nzCount row' + addedCount row' = nzCount row + addedCount row ∧
  addedCount row ≤ addedCount row' ∧
  s' + sumAdded row = s + sumAdded row' ∧
  ((row' = row ∧ s' = s) ∨ rowMoved row' = true) ∧
  (addedCount row' = addedCount row ∧ rowMoved row' = true ∧ rowMoved row = false →
    nzCount row' < w)

/-- A row whose cells carry no `added` / `moved` flag (as after
`prepare_cells_to_move`). -/
def ClearRow (r : List Cell) : Prop :=
  ∀ i, (cellD r i).added = false ∧ (cellD r i).moved = false

/-- A cell holding value `v` with clear flags (as produced by spawning or
by building a test grid). -/
def cv (v : Nat) : Cell := { value := v }

/-- A row in which some tile can legally shift or merge one cell to the
right: a non-zero cell whose right neighbour (within the stored width) is
empty or holds an equal value. -/
def RowHasMove (w : Nat) (row : List Cell) : Prop :=
  ∃ x ∈ List.range w, x + 1 < w ∧ (cellD row x).value ≠ 0 ∧
    ((cellD row (x + 1)).value = 0 ∨ (cellD row (x + 1)).value = (cellD row x).value)

/-- Some tile can legally shift or merge in direction `d`: after the
rotation `move` applies for `d`, some row has a movable tile. -/
def CanMove (m : Matrix) (d : Direction) : Prop :=
  ∃ row ∈ rot_forward d (prepare_cells_to_move m.matrix), RowHasMove m.width row

/-- The four neighbor values (N, S, E, W) that `get_neighbors` reports for
an in-range cell of a well-formed matrix. -/
def neighborVals (m : Matrix) (x y : Nat) : List Nat :=
  [if 0 < y then (getD2 m.matrix (y - 1) x).value else 0,
   if y < m.height - 1 then (getD2 m.matrix (y + 1) x).value else 0,
   if x < m.width - 1 then (getD2 m.matrix y (x + 1)).value else 0,
   if 0 < x then (getD2 m.matrix y (x - 1)).value else 0]

/-- The terminal-state predicate of the specification: no empty cell, and
no two orthogonally adjacent in-range cells share a value (each unordered
adjacent pair is covered once, as a down- or right-neighbour pair). -/
def TerminalSpec (m : Matrix) : Prop :=
  (∀ c ∈ m.matrix.flatten, c.value ≠ 0) ∧
  (∀ y < m.height, ∀ x < m.width,
    (y + 1 < m.height →
      (getD2 m.matrix y x).value ≠ (getD2 m.matrix (y + 1) x).value) ∧
    (x + 1 < m.width →
      (getD2 m.matrix y x).value ≠ (getD2 m.matrix y (x + 1)).value))

def applyMoves (m : Matrix) : List (Direction × Nat × Bool) → Option Matrix
  | [] => some m
  | (d, pick, four) :: rest =>
    match move m d pick four with
    | none => none
    | some m1 => applyMoves m1 rest

/-- A legal cell value: 0 (empty) or a power of two at least 2.
The exponent is bounded by the value, which keeps the predicate decidable. -/
def GoodVal (v : Nat) : Prop :=
  v = 0 ∨ ∃ k ∈ List.range (v + 1), 1 ≤ k ∧ v = 2 ^ k

/-- Every cell of the grid holds a legal value. -/
def GoodGrid (g : List (List Cell)) : Prop :=
  ∀ c ∈ g.flatten, GoodVal c.value

/-- States reachable in the game: a freshly constructed matrix (any
dimensions, any spawn outcomes), or a successful `move` from a reachable
state (any direction, any spawn outcome). -/
inductive Reachable : Matrix → Prop where
  | init (w h p1 p2 : Nat) (f1 f2 : Bool) : Reachable (Matrix.init w h p1 p2 f1 f2)
  | step (m m' : Matrix) (d : Direction) (pick : Nat) (four : Bool) :
      Reachable m → move m d pick four = some m' → Reachable m'

theorem Cell.default_eq : (default : Cell) = ⟨0, false, false, false⟩ := rfl

theorem default_value : (default : Cell).value = 0 := rfl

theorem default_added : (default : Cell).added = false := rfl

theorem default_moved : (default : Cell).moved = false := rfl

/-! ### Lemmas about `pyZip` and the rotations -/

theorem headD_eq_getD_zero (l : List α) (d : α) : l.headD d = l.getD 0 d := by
  cases l <;> rfl

theorem tail_getD (l : List α) (j : Nat) (d : α) : l.tail.getD j d = l.getD (j + 1) d := by
  cases l <;> rfl

theorem getD_eq_of_getElem? (l : List α) (i : Nat) (d a : α) (h : l[i]? = some a) :
    l.getD i d = a := by
  rw [List.getD_eq_getElem?_getD, h, Option.getD_some]

theorem pyZip_nil [Inhabited α] : pyZip ([] : List (List α)) = [] := by
  simp [pyZip]

theorem pyZip_cons [Inhabited α] (a : List α) (g : List (List α)) (w : Nat)
    (hrect : Rect (a :: g) w) (hw : 0 < w) :
    pyZip (a :: g) =
      ((a :: g).map (·.headD default)) :: pyZip ((a :: g).map List.tail) := by
  rw [pyZip, dif_pos]
  simp only [List.all_eq_true, Bool.not_eq_true']
  intro l hl
  have hlen := hrect l hl
  cases l with
  | nil => simp at hlen; omega
  | cons x xs => rfl

theorem pyZip_of_rect_zero [Inhabited α] (g : List (List α)) (hrect : Rect g 0) :
    pyZip g = [] := by
  cases g with
  | nil => exact pyZip_nil
  | cons a rest =>
    have ha : a = [] := List.length_eq_zero.mp (hrect a (by simp))
    rw [pyZip, dif_neg]
    simp [ha]

theorem rect_map_tail (g : List (List α)) (w : Nat) (hrect : Rect g (w + 1)) :
    Rect (g.map List.tail) w := by
  intro row hrow
  rw [List.mem_map] at hrow
  obtain ⟨r, hr, rfl⟩ := hrow
  have := hrect r hr
  simp [List.length_tail, this]

theorem length_pyZip [Inhabited α] (w : Nat) :
    ∀ (g : List (List α)), Rect g w → g ≠ [] → (pyZip g).length = w := by
  induction w with
  | zero =>
    intro g hrect _
    rw [pyZip_of_rect_zero g hrect]
    rfl
  | succ w ih =>
    intro g hrect hne
    cases g with
    | nil => exact absurd rfl hne
    | cons a rest =>
      rw [pyZip_cons a rest (w + 1) hrect (Nat.succ_pos w)]
      have h1 : Rect ((a :: rest).map List.tail) w := rect_map_tail _ _ hrect
      have h2 : (a :: rest).map List.tail ≠ [] := by simp
      rw [List.length_cons, ih _ h1 h2]

theorem getElem?_pyZip [Inhabited α] (j : Nat) :
    ∀ (w : Nat) (g : List (List α)), Rect g w → g ≠ [] → j < w →
      (pyZip g)[j]? = some (g.map (fun r => r.getD j default)) := by
  induction j with
  | zero =>
    intro w g hrect hne hj
    cases g with
    | nil => exact absurd rfl hne
    | cons a rest =>
      rw [pyZip_cons a rest w hrect (Nat.lt_of_le_of_lt (Nat.zero_le _) hj)]
      simp only [List.getElem?_cons_zero, Option.some.injEq]
      apply List.map_congr_left
      intro r _
      exact headD_eq_getD_zero r default
  | succ j ih =>
    intro w g hrect hne hj
    cases g with
    | nil => exact absurd rfl hne
    | cons a rest =>
      rw [pyZip_cons a rest w hrect (Nat.lt_of_le_of_lt (Nat.zero_le _) hj)]
      simp only [List.getElem?_cons_succ]
      cases w with
      | zero => omega
      | succ w =>
        rw [ih w _ (rect_map_tail _ _ hrect) (by simp) (by omega)]
        simp only [List.map_map, Option.some.injEq]
        apply List.map_congr_left
        intro r _
        exact tail_getD r j default

theorem rect_pyZip [Inhabited α] (w : Nat) (g : List (List α))
    (hrect : Rect g w) (hne : g ≠ []) : Rect (pyZip g) g.length := by
  intro row hrow
  obtain ⟨j, hj, hget⟩ := List.getElem_of_mem hrow
  have hjw : j < w := by
    have := length_pyZip w g hrect hne
    omega
  have := getElem?_pyZip j w g hrect hne hjw
  rw [List.getElem?_eq_getElem hj, hget] at this
  have : row = g.map (fun r => r.getD j default) := by
    injection this
  rw [this]
  simp

theorem flatten_eq_nil_of_rect_zero (g : List (List α)) (hrect : Rect g 0) :
    g.flatten = [] := by
  induction g with
  | nil => rfl
  | cons a rest ih =>
    have ha : a = [] := List.length_eq_zero.mp (hrect a (by simp))
    rw [List.flatten_cons, ha, List.nil_append]
    exact ih (fun r hr => hrect r (by simp [hr]))

theorem heads_tails_flatten_perm [Inhabited α] (w : Nat) :
    ∀ g : List (List α), Rect g (w + 1) →
      (g.map (·.headD default) ++ (g.map List.tail).flatten).Perm g.flatten := by
  intro g
  induction g with
  | nil => intro _; rfl
  | cons r rest ih =>
    intro hrect
    have hr : r.length = w + 1 := hrect r (by simp)
    cases r with
    | nil => simp at hr
    | cons a r' =>
      have hrest : Rect rest (w + 1) := fun q hq => hrect q (by simp [hq])
      simp only [List.map_cons, List.headD_cons, List.flatten_cons, List.tail_cons,
        List.cons_append]
      refine List.Perm.cons a ?_
      exact (List.perm_append_comm_assoc _ _ _).trans
        (List.Perm.append_left r' (ih hrest))

theorem pyZip_flatten_perm [Inhabited α] (w : Nat) :
    ∀ g : List (List α), Rect g w → (pyZip g).flatten.Perm g.flatten := by
  induction w with
  | zero =>
    intro g hrect
    rw [pyZip_of_rect_zero g hrect, flatten_eq_nil_of_rect_zero g hrect]
    simp
  | succ w ih =>
    intro g hrect
    cases g with
    | nil => rw [pyZip_nil]
    | cons a rest =>
      rw [pyZip_cons a rest (w + 1) hrect (Nat.succ_pos w), List.flatten_cons]
      exact (List.Perm.append_left _ (ih _ (rect_map_tail _ _ hrect))).trans
        (heads_tails_flatten_perm w (a :: rest) hrect)

theorem rect_reverse (g : List (List α)) (w : Nat) (h : Rect g w) : Rect g.reverse w :=
  fun row hrow => h row (List.mem_reverse.mp hrow)

theorem length_rotate_cw (g : List (List Cell)) (w : Nat)
    (hrect : Rect g w) (hne : g ≠ []) : (rotate_cw g).length = w :=
  length_pyZip w g.reverse (rect_reverse g w hrect) (by simpa using hne)

theorem rect_rotate_cw (g : List (List Cell)) (w : Nat)
    (hrect : Rect g w) (hne : g ≠ []) : Rect (rotate_cw g) g.length := by
  have := rect_pyZip w g.reverse (rect_reverse g w hrect) (by simpa using hne)
  simpa [rotate_cw] using this

theorem getD2_rotate_cw (g : List (List Cell)) (w : Nat)
    (hrect : Rect g w) (hne : g ≠ []) (i j : Nat)
    (hi : i < g.length) (hj : j < w) :
    getD2 (rotate_cw g) j i = getD2 g (g.length - 1 - i) j := by
  have hrev : Rect g.reverse w := rect_reverse g w hrect
  have hrevne : g.reverse ≠ [] := by simpa using hne
  have hrow := getElem?_pyZip j w g.reverse hrev hrevne hj
  unfold rotate_cw getD2
  rw [getD_eq_of_getElem? _ _ _ _ hrow]
  rw [List.getD_eq_getElem?_getD, List.getElem?_map,
    List.getElem?_reverse (by simpa using hi)]
  have hlt : g.length - 1 - i < g.length := by omega
  rw [List.getElem?_eq_getElem hlt]
  simp only [Option.map_some', Option.getD_some]
  simp [List.getD_eq_getElem?_getD, List.getElem?_eq_getElem hlt]

theorem rotate_ccw_eq (g : List (List Cell)) :
    rotate_ccw g = ((rotate_cw g).map List.reverse).reverse := rfl

theorem length_rotate_ccw (g : List (List Cell)) (w : Nat)
    (hrect : Rect g w) (hne : g ≠ []) : (rotate_ccw g).length = w := by
  rw [rotate_ccw_eq]
  simp [length_rotate_cw g w hrect hne]

theorem rect_rotate_ccw (g : List (List Cell)) (w : Nat)
    (hrect : Rect g w) (hne : g ≠ []) : Rect (rotate_ccw g) g.length := by
  rw [rotate_ccw_eq]
  intro row hrow
  rw [List.mem_reverse, List.mem_map] at hrow
  obtain ⟨r, hr, rfl⟩ := hrow
  simpa using rect_rotate_cw g w hrect hne r hr

theorem getD2_eq_of_getElem? (g : List (List Cell)) (n m : Nat) (r : List Cell)
    (c : Cell) (hr : g[n]? = some r) (hc : r[m]? = some c) : getD2 g n m = c := by
  unfold getD2
  rw [List.getD_eq_getElem?_getD g n [], hr, Option.getD_some,
    List.getD_eq_getElem?_getD, hc, Option.getD_some]

theorem getD2_rev_map_rev (X : List (List Cell)) (W : Nat) (hrect : Rect X W)
    (i j : Nat) (hi : i < X.length) (hj : j < W) :
    getD2 ((X.map List.reverse).reverse) i j = getD2 X (X.length - 1 - i) (W - 1 - j) := by
  have hn : X.length - 1 - i < X.length := by omega
  obtain ⟨r, hr⟩ : ∃ r, X[X.length - 1 - i]? = some r :=
    ⟨_, List.getElem?_eq_getElem hn⟩
  have hrlen : r.length = W := hrect r (List.getElem?_mem hr)
  have hrow : ((X.map List.reverse).reverse)[i]? = some r.reverse := by
    rw [List.getElem?_reverse (by simpa using hi), List.getElem?_map]
    rw [List.length_map, hr]
    rfl
  obtain ⟨c, hc⟩ : ∃ c, r[W - 1 - j]? = some c :=
    ⟨_, List.getElem?_eq_getElem (by omega)⟩
  have hcrev : r.reverse[j]? = some c := by
    rw [List.getElem?_reverse (by rw [hrlen]; omega), hrlen]
    exact hc
  rw [getD2_eq_of_getElem? _ i j r.reverse c hrow hcrev,
    getD2_eq_of_getElem? _ _ _ r c hr hc]

theorem getD2_rotate_ccw (g : List (List Cell)) (w : Nat)
    (hrect : Rect g w) (hne : g ≠ []) (i j : Nat)
    (hi : i < w) (hj : j < g.length) :
    getD2 (rotate_ccw g) i j = getD2 g j (w - 1 - i) := by
  rw [rotate_ccw_eq]
  have h1 := getD2_rev_map_rev (rotate_cw g) g.length (rect_rotate_cw g w hrect hne)
    i j (by rw [length_rotate_cw g w hrect hne]; exact hi) hj
  rw [length_rotate_cw g w hrect hne] at h1
  rw [h1]
  have h2 := getD2_rotate_cw g w hrect hne (g.length - 1 - j) (w - 1 - i)
    (by omega) (by omega)
  rw [h2]
  congr 1
  omega

theorem eq_of_getD2 (g g' : List (List Cell)) (h w : Nat)
    (hg : g.length = h) (hg' : g'.length = h)
    (hr : Rect g w) (hr' : Rect g' w)
    (hcell : ∀ i j, i < h → j < w → getD2 g i j = getD2 g' i j) : g = g' := by
  apply List.ext_getElem?
  intro n
  by_cases hn : n < h
  · obtain ⟨row, hrow⟩ : ∃ r, g[n]? = some r :=
      ⟨_, List.getElem?_eq_getElem (by omega)⟩
    obtain ⟨row', hrow'⟩ : ∃ r, g'[n]? = some r :=
      ⟨_, List.getElem?_eq_getElem (show n < g'.length by omega)⟩
    have hrl : row.length = w := hr row (List.getElem?_mem hrow)
    have hrl' : row'.length = w := hr' row' (List.getElem?_mem hrow')
    rw [hrow, hrow']
    congr 1
    apply List.ext_getElem?
    intro m
    by_cases hm : m < w
    · obtain ⟨c, hc⟩ : ∃ c, row[m]? = some c :=
        ⟨_, List.getElem?_eq_getElem (by omega)⟩
      obtain ⟨c', hc'⟩ : ∃ c, row'[m]? = some c :=
        ⟨_, List.getElem?_eq_getElem (by omega)⟩
      rw [hc, hc']
      have := hcell n m hn hm
      rw [getD2_eq_of_getElem? g n m row c hrow hc,
        getD2_eq_of_getElem? g' n m row' c' hrow' hc'] at this
      rw [this]
    · rw [List.getElem?_eq_none (by omega), List.getElem?_eq_none (by omega)]
  · rw [List.getElem?_eq_none (by omega), List.getElem?_eq_none (by omega)]

theorem rotate_ccw_rotate_cw (g : List (List Cell)) (w : Nat)
    (hrect : Rect g w) (hw : 0 < w) : rotate_ccw (rotate_cw g) = g := by
  by_cases hne : g = []
  · subst hne
    simp [rotate_cw, rotate_ccw, pyZip_nil]
  · have hh : 0 < g.length := List.length_pos.mpr hne
    have hlen := length_rotate_cw g w hrect hne
    have hrectX := rect_rotate_cw g w hrect hne
    have hXne : rotate_cw g ≠ [] := by
      apply List.length_pos.mp
      omega
    apply eq_of_getD2 _ g g.length w
    · exact length_rotate_ccw (rotate_cw g) g.length hrectX hXne
    · rfl
    · have := rect_rotate_ccw (rotate_cw g) g.length hrectX hXne
      rwa [hlen] at this
    · exact hrect
    · intro i j hi hj
      rw [getD2_rotate_ccw (rotate_cw g) g.length hrectX hXne i j hi (by omega)]
      rw [getD2_rotate_cw g w hrect hne (g.length - 1 - i) j (by omega) hj]
      congr 1
      omega

theorem rotate_cw_rotate_ccw (g : List (List Cell)) (w : Nat)
    (hrect : Rect g w) (hw : 0 < w) : rotate_cw (rotate_ccw g) = g := by
  by_cases hne : g = []
  · subst hne
    simp [rotate_cw, rotate_ccw, pyZip_nil]
  · have hh : 0 < g.length := List.length_pos.mpr hne
    have hYlen := length_rotate_ccw g w hrect hne
    have hrectY := rect_rotate_ccw g w hrect hne
    have hYne : rotate_ccw g ≠ [] := by
      apply List.length_pos.mp
      omega
    apply eq_of_getD2 _ g g.length w
    · rw [length_rotate_cw (rotate_ccw g) g.length hrectY hYne]
    · rfl
    · have := rect_rotate_cw (rotate_ccw g) g.length hrectY hYne
      rwa [hYlen] at this
    · exact hrect
    · intro i j hi hj
      rw [getD2_rotate_cw (rotate_ccw g) g.length hrectY hYne j i (by omega) hi]
      rw [hYlen]
      rw [getD2_rotate_ccw g w hrect hne (w - 1 - j) i (by omega) (by omega)]
      congr 1
      omega

theorem length_rotate_cw2 (g : List (List Cell)) (w : Nat)
    (hrect : Rect g w) (hne : g ≠ []) (hw : 0 < w) :
    (rotate_cw (rotate_cw g)).length = g.length := by
  have h1 := length_rotate_cw g w hrect hne
  have hXne : rotate_cw g ≠ [] := List.length_pos.mp (by omega)
  rw [length_rotate_cw (rotate_cw g) g.length (rect_rotate_cw g w hrect hne) hXne]

theorem rect_rotate_cw2 (g : List (List Cell)) (w : Nat)
    (hrect : Rect g w) (hne : g ≠ []) (hw : 0 < w) :
    Rect (rotate_cw (rotate_cw g)) w := by
  have h1 := length_rotate_cw g w hrect hne
  have hXne : rotate_cw g ≠ [] := List.length_pos.mp (by omega)
  have := rect_rotate_cw (rotate_cw g) g.length (rect_rotate_cw g w hrect hne) hXne
  rwa [h1] at this

theorem getD2_rotate_cw2 (g : List (List Cell)) (w : Nat)
    (hrect : Rect g w) (hne : g ≠ []) (hw : 0 < w) (i j : Nat)
    (hi : i < g.length) (hj : j < w) :
    getD2 (rotate_cw (rotate_cw g)) i j = getD2 g (g.length - 1 - i) (w - 1 - j) := by
  have h1 := length_rotate_cw g w hrect hne
  have hXne : rotate_cw g ≠ [] := List.length_pos.mp (by omega)
  have hrectX := rect_rotate_cw g w hrect hne
  rw [getD2_rotate_cw (rotate_cw g) g.length hrectX hXne j i (by omega) hi]
  rw [h1]
  rw [getD2_rotate_cw g w hrect hne i (w - 1 - j) hi (by omega)]

theorem rotate_cw_four (g : List (List Cell)) (w : Nat)
    (hrect : Rect g w) (hw : 0 < w) (hh : 0 < g.length) :
    rotate_cw (rotate_cw (rotate_cw (rotate_cw g))) = g := by
  have hne : g ≠ [] := List.length_pos.mp hh
  have h2len := length_rotate_cw2 g w hrect hne hw
  have h2rect := rect_rotate_cw2 g w hrect hne hw
  have h2ne : rotate_cw (rotate_cw g) ≠ [] := List.length_pos.mp (by omega)
  apply eq_of_getD2 _ g g.length w
  · rw [length_rotate_cw2 (rotate_cw (rotate_cw g)) w h2rect h2ne hw, h2len]
  · rfl
  · exact rect_rotate_cw2 (rotate_cw (rotate_cw g)) w h2rect h2ne hw
  · exact hrect
  · intro i j hi hj
    rw [getD2_rotate_cw2 (rotate_cw (rotate_cw g)) w h2rect h2ne hw i j (by omega) hj]
    rw [h2len]
    rw [getD2_rotate_cw2 g w hrect hne hw (g.length - 1 - i) (w - 1 - j) (by omega) (by omega)]
    congr 1 <;> omega

/-! ### Utility lemmas about `cellD`, counts and flags -/

theorem cellD_eq_of_getElem? (row : List Cell) (i : Nat) (c : Cell)
    (h : row[i]? = some c) : cellD row i = c := by
  unfold cellD
  rw [List.getD_eq_getElem?_getD, h, Option.getD_some]

theorem getElem?_eq_some_cellD (row : List Cell) (i : Nat) (hi : i < row.length) :
    row[i]? = some (cellD row i) := by
  rw [List.getElem?_eq_getElem hi]
  unfold cellD
  rw [List.getD_eq_getElem?_getD, List.getElem?_eq_getElem hi, Option.getD_some]

theorem cellD_set_self (row : List Cell) (i : Nat) (c : Cell) (h : i < row.length) :
    cellD (row.set i c) i = c := by
  apply cellD_eq_of_getElem?
  rw [List.getElem?_set]
  simp [h]

theorem cellD_set_ne (row : List Cell) (i j : Nat) (c : Cell) (h : i ≠ j) :
    cellD (row.set i c) j = cellD row j := by
  unfold cellD
  rw [List.getD_eq_getElem?_getD, List.getD_eq_getElem?_getD, List.getElem?_set]
  simp [h]

theorem cellD_oob (row : List Cell) (i : Nat) (h : row.length ≤ i) :
    cellD row i = default := by
  unfold cellD
  rw [List.getD_eq_getElem?_getD, List.getElem?_eq_none h]
  rfl

theorem countP_set_add (p : Cell → Bool) (row : List Cell) (i : Nat) (c : Cell)
    (h : i < row.length) :
    (row.set i c).countP p + (if p (cellD row i) then 1 else 0) =
      row.countP p + (if p c then 1 else 0) := by
  have hel : row[i] = cellD row i := by
    unfold cellD
    rw [List.getD_eq_getElem?_getD, List.getElem?_eq_getElem h, Option.getD_some]
  have hcp := List.countP_set p row i c h
  rw [hel] at hcp
  by_cases hpi : p (cellD row i) = true
  · have hpos : 0 < row.countP p := by
      rw [List.countP_pos_iff]
      refine ⟨row[i], List.getElem_mem h, ?_⟩
      rw [hel]
      exact hpi
    rw [hcp]
    simp only [hpi, if_true]
    omega
  · rw [hcp]
    simp only [hpi, if_false]
    rw [Bool.not_eq_true] at hpi
    simp [hpi]

theorem sum_set_nat : ∀ (l : List Nat) (i : Nat) (a : Nat), i < l.length →
    (l.set i a).sum + l.getD i 0 = l.sum + a := by
  intro l
  induction l with
  | nil => intro i a h; simp at h
  | cons b bs ih =>
    intro i a h
    cases i with
    | zero => simp [List.set, List.getD]; omega
    | succ i =>
      simp only [List.set, List.sum_cons, List.getD_cons_succ]
      have := ih i a (by simpa using h)
      omega

theorem sumAdded_set (row : List Cell) (i : Nat) (c : Cell) (h : i < row.length) :
    sumAdded (row.set i c) + (if (cellD row i).added then (cellD row i).value else 0) =
      sumAdded row + (if c.added then c.value else 0) := by
  unfold sumAdded
  rw [List.map_set]
  have hl : i < (row.map (fun c => if c.added then c.value else 0)).length := by
    simpa using h
  have := sum_set_nat (row.map (fun c => if c.added then c.value else 0)) i
    (if c.added then c.value else 0) hl
  rw [List.getD_eq_getElem?_getD, List.getElem?_map, getElem?_eq_some_cellD row i h] at this
  simpa using this

theorem rowMoved_of_cellD (row : List Cell) (i : Nat) (hi : i < row.length)
    (h : (cellD row i).moved = true) : rowMoved row = true := by
  unfold rowMoved
  rw [List.any_eq_true]
  exact ⟨cellD row i, List.getElem?_mem (getElem?_eq_some_cellD row i hi), h⟩

theorem cellD_mem (row : List Cell) (i : Nat) (hi : i < row.length) :
    cellD row i ∈ row :=
  List.getElem?_mem (getElem?_eq_some_cellD row i hi)

theorem nzCount_le_length (row : List Cell) : nzCount row ≤ row.length :=
  List.countP_le_length _

theorem nzCount_lt_of_zero (row : List Cell) (i : Nat) (hi : i < row.length)
    (h : (cellD row i).value = 0) : nzCount row < row.length := by
  have hle := nzCount_le_length row
  rcases Nat.lt_or_ge (nzCount row) row.length with hlt | hge
  · exact hlt
  · exfalso
    have heq : nzCount row = row.length := by omega
    unfold nzCount at heq
    rw [List.countP_eq_length] at heq
    have := heq (cellD row i) (cellD_mem row i hi)
    simp [h] at this

theorem FlagsIn_mono (a b : Nat) (row : List Cell) (hab : a ≤ b)
    (h : FlagsIn b row) : FlagsIn a row := by
  intro i hi
  have := h i hi
  omega

theorem Comp_of_big (a : Nat) (row : List Cell) (h : row.length ≤ a + 1) :
    Comp a row := by
  intro i j h1 h2 h3
  omega

theorem iadd_of_target_zero (t : Cell) (a : Nat) (h : t.value = 0) (hA : t.added = false) :
    t.iadd a = ⟨a, false, true, t.new⟩ := by
  simp [Cell.iadd, h, hA]

theorem iadd_of_merge (t : Cell) (a : Nat) (ht : t.value ≠ 0) (ha : a ≠ 0) :
    t.iadd a = ⟨t.value + a, true, true, t.new⟩ := by
  simp [Cell.iadd, ht, ha]

theorem Comp_ext (x : Nat) (row : List Cell) (h : Comp (x + 1) row)
    (hx : (cellD row x).value = 0 ∨ (cellD row (x + 1)).value ≠ 0) :
    Comp x row := by
  intro i j h1 h2 h3 hnz
  rcases Nat.lt_or_ge i (x + 1) with hi | hi
  · have hix : i = x := by omega
    subst hix
    rcases hx with hz | ht
    · exact absurd hz hnz
    · rcases Nat.eq_or_lt_of_le (Nat.succ_le_of_lt h2) with hj | hj
      · rw [← hj]
        exact ht
      · exact h (i + 1) j (by omega) (by omega) h3 ht
  · exact h i j hi h2 h3 hnz

/-! ### The master invariant of one `move_cell_to_right` call -/

theorem mctr_blocked (w x : Nat) (row : List Cell) (s : Nat)
    (hx1 : x + 1 < row.length)
    (hguard : ¬((cellD row (x + 1)).value = 0 ∨
      ((cellD row x).added = false ∧ (cellD row (x + 1)).added = false ∧
        (cellD row (x + 1)).value = (cellD row x).value))) :
    move_cell_to_right w x row s = some (row, s) := by
  rw [move_cell_to_right]
  rw [getElem?_eq_some_cellD row (x + 1) hx1, getElem?_eq_some_cellD row x (by omega)]
  dsimp only
  rw [if_neg hguard]

theorem nzCount_set (row : List Cell) (i : Nat) (c : Cell) (h : i < row.length) :
    nzCount (row.set i c) + (if (cellD row i).value ≠ 0 then 1 else 0) =
      nzCount row + (if c.value ≠ 0 then 1 else 0) := by
  have := countP_set_add (fun c => decide (c.value ≠ 0)) row i c h
  simpa [nzCount] using this

theorem addedCount_set (row : List Cell) (i : Nat) (c : Cell) (h : i < row.length) :
    addedCount (row.set i c) + (if (cellD row i).added then 1 else 0) =
      addedCount row + (if c.added then 1 else 0) := by
  have := countP_set_add (·.added) row i c h
  simpa [addedCount] using this

theorem mctr_spec (w : Nat) :
    ∀ n x row s, w - 1 - x = n → row.length = w → x + 1 < w →
    Comp (x + 1) row → FlagsIn (x + 1) row →
    (cellD row x).value ≠ 0 → (cellD row x).added = false →
    ∃ row' s', move_cell_to_right w x row s = some (row', s') ∧
      MPost w x row row' s s' := by
  intro n
  induction n with
  | zero =>
    intro x row s hn hlen hx1 _ _ _ _
    omega
  | succ n ih =>
    intro x row s hn hlen hx1 hComp hFlags hnz hA
    have hx1' : x + 1 < row.length := by omega
    have hx' : x < row.length := by omega
    rw [move_cell_to_right, getElem?_eq_some_cellD row (x + 1) hx1',
      getElem?_eq_some_cellD row x hx']
    dsimp only
    by_cases hG : (cellD row (x + 1)).value = 0 ∨
        ((cellD row x).added = false ∧ (cellD row (x + 1)).added = false ∧
          (cellD row (x + 1)).value = (cellD row x).value)
    · rw [if_pos hG]
      by_cases hT0 : (cellD row (x + 1)).value = 0
      · -- the target is empty: the tile slides one cell to the right
        have hTadd : (cellD row (x + 1)).added = false := by
          by_contra hh
          rw [Bool.not_eq_false] at hh
          exact (hFlags (x + 1) hh).2 hT0
        rw [iadd_of_target_zero _ _ hT0 hTadd]
        dsimp only
        rw [if_neg Bool.false_ne_true]
        have f_len : ((row.set (x + 1)
            (⟨(cellD row x).value, false, true, (cellD row (x + 1)).new⟩ : Cell)).set
              x default).length = row.length := by simp
        have f_x : cellD ((row.set (x + 1)
            (⟨(cellD row x).value, false, true, (cellD row (x + 1)).new⟩ : Cell)).set
              x default) x = default :=
          cellD_set_self _ x default (by simp [hx'])
        have f_x1 : cellD ((row.set (x + 1)
            (⟨(cellD row x).value, false, true, (cellD row (x + 1)).new⟩ : Cell)).set
              x default) (x + 1) =
            ⟨(cellD row x).value, false, true, (cellD row (x + 1)).new⟩ := by
          rw [cellD_set_ne _ x (x + 1) _ (by omega)]
          exact cellD_set_self row (x + 1) _ hx1'
        have f_other : ∀ i, i ≠ x → i ≠ x + 1 →
            cellD ((row.set (x + 1)
              (⟨(cellD row x).value, false, true, (cellD row (x + 1)).new⟩ : Cell)).set
                x default) i = cellD row i := by
          intro i hix hix1
          rw [cellD_set_ne _ x i _ (Ne.symm hix)]
          exact cellD_set_ne row (x + 1) i _ (fun h => hix1 (h.symm))
        have f_nz : nzCount ((row.set (x + 1)
            (⟨(cellD row x).value, false, true, (cellD row (x + 1)).new⟩ : Cell)).set
              x default) = nzCount row := by
          have h1 := nzCount_set row (x + 1)
            ⟨(cellD row x).value, false, true, (cellD row (x + 1)).new⟩ hx1'
          have h2 := nzCount_set (row.set (x + 1)
            (⟨(cellD row x).value, false, true, (cellD row (x + 1)).new⟩ : Cell))
            x default (by simp [hx'])
          rw [cellD_set_ne row (x + 1) x _ (by omega)] at h2
          simp only [hT0, default_value] at h1 h2
          simp [hnz] at h1 h2
          omega
        have f_add : addedCount ((row.set (x + 1)
            (⟨(cellD row x).value, false, true, (cellD row (x + 1)).new⟩ : Cell)).set
              x default) = addedCount row := by
          have h1 := addedCount_set row (x + 1)
            ⟨(cellD row x).value, false, true, (cellD row (x + 1)).new⟩ hx1'
          have h2 := addedCount_set (row.set (x + 1)
            (⟨(cellD row x).value, false, true, (cellD row (x + 1)).new⟩ : Cell))
            x default (by simp [hx'])
          rw [cellD_set_ne row (x + 1) x _ (by omega)] at h2
          simp only [hTadd, hA, default_added] at h1 h2
          simp at h1 h2
          omega
        have f_sum : sumAdded ((row.set (x + 1)
            (⟨(cellD row x).value, false, true, (cellD row (x + 1)).new⟩ : Cell)).set
              x default) = sumAdded row := by
          have h1 := sumAdded_set row (x + 1)
            ⟨(cellD row x).value, false, true, (cellD row (x + 1)).new⟩ hx1'
          have h2 := sumAdded_set (row.set (x + 1)
            (⟨(cellD row x).value, false, true, (cellD row (x + 1)).new⟩ : Cell))
            x default (by simp [hx'])
          rw [cellD_set_ne row (x + 1) x _ (by omega)] at h2
          simp only [hTadd, hA, default_added] at h1 h2
          simp at h1 h2
          omega
        have f_moved : rowMoved ((row.set (x + 1)
            (⟨(cellD row x).value, false, true, (cellD row (x + 1)).new⟩ : Cell)).set
              x default) = true := by
          apply rowMoved_of_cellD _ (x + 1) (by simp [hx1'])
          rw [f_x1]
        have f_comp2 : Comp (x + 2) ((row.set (x + 1)
            (⟨(cellD row x).value, false, true, (cellD row (x + 1)).new⟩ : Cell)).set
              x default) := by
          intro i j h1 h2 h3 hnzi
          rw [f_other j (by omega) (by omega)]
          rw [f_other i (by omega) (by omega)] at hnzi
          rw [f_len] at h3
          exact hComp i j (by omega) h2 h3 hnzi
        have f_flags2 : FlagsIn (x + 2) ((row.set (x + 1)
            (⟨(cellD row x).value, false, true, (cellD row (x + 1)).new⟩ : Cell)).set
              x default) := by
          intro i hadd
          by_cases hix : i = x
          · subst hix
            rw [f_x, Cell.default_eq] at hadd
            simp at hadd
          · by_cases hix1 : i = x + 1
            · subst hix1
              rw [f_x1] at hadd
              simp at hadd
            · rw [f_other i hix hix1] at hadd ⊢
              have := hFlags i hadd
              exact ⟨by omega, this.2⟩
        have f_stab : ∀ i, (cellD row i).added = true →
            cellD ((row.set (x + 1)
              (⟨(cellD row x).value, false, true, (cellD row (x + 1)).new⟩ : Cell)).set
                x default) i = cellD row i := by
          intro i hadd
          have hi := hFlags i hadd
          have hix1 : i ≠ x + 1 := by
            intro h
            subst h
            rw [hTadd] at hadd
            exact Bool.false_ne_true hadd
          exact f_other i (by omega) hix1
        have f_zero : nzCount row < w := by
          have := nzCount_lt_of_zero row (x + 1) hx1' hT0
          omega
        by_cases hwall : w - 1 ≤ x + 1
        · rw [if_pos hwall]
          refine ⟨_, _, rfl, f_len, ?_, FlagsIn_mono _ _ _ (by omega) f_flags2,
            f_stab, by omega, by omega, by omega, Or.inr f_moved, ?_, ?_⟩
          · intro i j h1 h2 h3 hnzi
            rcases Nat.eq_or_lt_of_le h1 with hix | hix
            · rw [← hix, f_x, Cell.default_eq] at hnzi
              simp at hnzi
            · rw [f_len] at h3
              omega
          · intro hq
            rw [f_nz]
            omega
          · intro i hi
            exact f_other i (by omega) (by omega)
        · rw [if_neg hwall]
          obtain ⟨row₂, s₂, heval, hp⟩ := ih (x + 1) _ s (by omega)
            (by rw [f_len, hlen]) (by omega) f_comp2 f_flags2
            (by rw [f_x1]; simpa using hnz) (by rw [f_x1])
          obtain ⟨p1, p2, p3, p4, p5, p6, p7, p8, p9, p10⟩ := hp
          refine ⟨row₂, s₂, heval, by rw [p1, f_len], ?_,
            FlagsIn_mono _ _ _ (by omega) p3, ?_, by omega, by omega, by omega,
            ?_, by omega, ?_⟩
          · intro i j h1 h2 h3 hnzi
            rcases Nat.eq_or_lt_of_le h1 with hix | hix
            · rw [← hix, p10 x (by omega), f_x, Cell.default_eq] at hnzi
              simp at hnzi
            · exact p2 i j (by omega) h2 h3 hnzi
          · intro i hadd
            have hstep := f_stab i hadd
            have hadd1 : (cellD ((row.set (x + 1)
                (⟨(cellD row x).value, false, true, (cellD row (x + 1)).new⟩ : Cell)).set
                  x default) i).added = true := by rw [hstep]; exact hadd
            rw [p4 i hadd1, hstep]
          · rcases p8 with ⟨hr, _⟩ | hm
            · right
              rw [hr]
              exact f_moved
            · right
              exact hm
          · intro i hi
            rw [p10 i (by omega), f_other i (by omega) (by omega)]
      · -- the target is non-empty with an equal value and no flags: merge
        have hM := hG.resolve_left hT0
        obtain ⟨hCa, hTa, hTv⟩ := hM
        rw [iadd_of_merge _ _ hT0 hnz]
        dsimp only
        rw [if_pos rfl]
        have g_len : ((row.set (x + 1)
            (⟨(cellD row (x + 1)).value + (cellD row x).value, true, true,
              (cellD row (x + 1)).new⟩ : Cell)).set x default).length = row.length := by
          simp
        have g_x : cellD ((row.set (x + 1)
            (⟨(cellD row (x + 1)).value + (cellD row x).value, true, true,
              (cellD row (x + 1)).new⟩ : Cell)).set x default) x = default :=
          cellD_set_self _ x default (by simp [hx'])
        have g_x1 : cellD ((row.set (x + 1)
            (⟨(cellD row (x + 1)).value + (cellD row x).value, true, true,
              (cellD row (x + 1)).new⟩ : Cell)).set x default) (x + 1) =
            ⟨(cellD row (x + 1)).value + (cellD row x).value, true, true,
              (cellD row (x + 1)).new⟩ := by
          rw [cellD_set_ne _ x (x + 1) _ (by omega)]
          exact cellD_set_self row (x + 1) _ hx1'
        have g_other : ∀ i, i ≠ x → i ≠ x + 1 →
            cellD ((row.set (x + 1)
              (⟨(cellD row (x + 1)).value + (cellD row x).value, true, true,
                (cellD row (x + 1)).new⟩ : Cell)).set x default) i = cellD row i := by
          intro i hix hix1
          rw [cellD_set_ne _ x i _ (Ne.symm hix)]
          exact cellD_set_ne row (x + 1) i _ (fun h => hix1 (h.symm))
        have g_nz : nzCount ((row.set (x + 1)
            (⟨(cellD row (x + 1)).value + (cellD row x).value, true, true,
              (cellD row (x + 1)).new⟩ : Cell)).set x default) + 1 = nzCount row := by
          have h1 := nzCount_set row (x + 1)
            ⟨(cellD row (x + 1)).value + (cellD row x).value, true, true,
              (cellD row (x + 1)).new⟩ hx1'
          have h2 := nzCount_set (row.set (x + 1)
            (⟨(cellD row (x + 1)).value + (cellD row x).value, true, true,
              (cellD row (x + 1)).new⟩ : Cell)) x default (by simp [hx'])
          rw [cellD_set_ne row (x + 1) x _ (by omega)] at h2
          simp only [default_value] at h1 h2
          simp [hT0, hnz] at h1 h2
          omega
        have g_add : addedCount ((row.set (x + 1)
            (⟨(cellD row (x + 1)).value + (cellD row x).value, true, true,
              (cellD row (x + 1)).new⟩ : Cell)).set x default) = addedCount row + 1 := by
          have h1 := addedCount_set row (x + 1)
            ⟨(cellD row (x + 1)).value + (cellD row x).value, true, true,
              (cellD row (x + 1)).new⟩ hx1'
          have h2 := addedCount_set (row.set (x + 1)
            (⟨(cellD row (x + 1)).value + (cellD row x).value, true, true,
              (cellD row (x + 1)).new⟩ : Cell)) x default (by simp [hx'])
          rw [cellD_set_ne row (x + 1) x _ (by omega)] at h2
          simp only [hTa, hCa, default_added] at h1 h2
          simp at h1 h2
          omega
        have g_sum : sumAdded ((row.set (x + 1)
            (⟨(cellD row (x + 1)).value + (cellD row x).value, true, true,
              (cellD row (x + 1)).new⟩ : Cell)).set x default) =
            sumAdded row + ((cellD row (x + 1)).value + (cellD row x).value) := by
          have h1 := sumAdded_set row (x + 1)
            ⟨(cellD row (x + 1)).value + (cellD row x).value, true, true,
              (cellD row (x + 1)).new⟩ hx1'
          have h2 := sumAdded_set (row.set (x + 1)
            (⟨(cellD row (x + 1)).value + (cellD row x).value, true, true,
              (cellD row (x + 1)).new⟩ : Cell)) x default (by simp [hx'])
          rw [cellD_set_ne row (x + 1) x _ (by omega)] at h2
          simp only [hTa, hCa, default_added] at h1 h2
          simp at h1 h2
          omega
        have g_moved : rowMoved ((row.set (x + 1)
            (⟨(cellD row (x + 1)).value + (cellD row x).value, true, true,
              (cellD row (x + 1)).new⟩ : Cell)).set x default) = true := by
          apply rowMoved_of_cellD _ (x + 1) (by simp [hx1'])
          rw [g_x1]
        have g_comp : Comp x ((row.set (x + 1)
            (⟨(cellD row (x + 1)).value + (cellD row x).value, true, true,
              (cellD row (x + 1)).new⟩ : Cell)).set x default) := by
          intro i j h1 h2 h3 hnzi
          rw [g_len] at h3
          by_cases hjx1 : j = x + 1
          · subst hjx1
            rw [g_x1]
            simp [hT0]
          · rw [g_other j (by omega) hjx1]
            exact hComp (x + 1) j (by omega) (by omega) h3 hT0
        have g_flags : FlagsIn (x + 1) ((row.set (x + 1)
            (⟨(cellD row (x + 1)).value + (cellD row x).value, true, true,
              (cellD row (x + 1)).new⟩ : Cell)).set x default) := by
          intro i hadd
          by_cases hix : i = x
          · subst hix
            rw [g_x, Cell.default_eq] at hadd
            simp at hadd
          · by_cases hix1 : i = x + 1
            · subst hix1
              rw [g_x1]
              exact ⟨by omega, by simp [hT0]⟩
            · rw [g_other i hix hix1] at hadd ⊢
              have := hFlags i hadd
              exact ⟨this.1, this.2⟩
        have g_stab : ∀ i, (cellD row i).added = true →
            cellD ((row.set (x + 1)
              (⟨(cellD row (x + 1)).value + (cellD row x).value, true, true,
                (cellD row (x + 1)).new⟩ : Cell)).set x default) i = cellD row i := by
          intro i hadd
          have hi := hFlags i hadd
          have hix1 : i ≠ x + 1 := by
            intro h
            subst h
            rw [hTa] at hadd
            exact Bool.false_ne_true hadd
          exact g_other i (by omega) hix1
        have hMP : MPost w x row ((row.set (x + 1)
            (⟨(cellD row (x + 1)).value + (cellD row x).value, true, true,
              (cellD row (x + 1)).new⟩ : Cell)).set x default) s
            (s + ((cellD row (x + 1)).value + (cellD row x).value)) := by
          refine ⟨g_len, g_comp, g_flags, g_stab, by omega, by omega, by omega,
            Or.inr g_moved, by omega, ?_⟩
          intro i hi
          exact g_other i (by omega) (by omega)
        by_cases hwall : w - 1 ≤ x + 1
        · rw [if_pos hwall]
          exact ⟨_, _, rfl, hMP⟩
        · rw [if_neg hwall]
          rw [mctr_blocked w (x + 1) _ _ (by rw [g_len]; omega) ?_]
          · exact ⟨_, _, rfl, hMP⟩
          · intro hcon
            rcases hcon with hzero | ⟨hsa, _, _⟩
            · rw [g_other (x + 2) (by omega) (by omega)] at hzero
              exact hComp (x + 1) (x + 2) (by omega) (by omega) (by omega) hT0 hzero
            · rw [g_x1] at hsa
              simp at hsa
    · rw [if_neg hG]
      have hTnz : (cellD row (x + 1)).value ≠ 0 := by
        intro h
        exact hG (Or.inl h)
      refine ⟨row, s, rfl, rfl, Comp_ext x row hComp (Or.inr hTnz), hFlags,
        fun i _ => rfl, by omega, Nat.le_refl _, by omega, Or.inl ⟨rfl, rfl⟩,
        ?_, fun i _ => rfl⟩
      intro hq
      rw [hq.2.1] at hq
      simp at hq

theorem row_pass_spec (w : Nat) :
    ∀ k row s, row.length = w → k ≤ w → Comp k row → FlagsIn k row →
    ∃ row' s', move_row_pass w ((List.range k).reverse) row s = some (row', s') ∧
      RPost w row row' s s' := by
  intro k
  induction k with
  | zero =>
    intro row s hlen _ hComp hFlags
    refine ⟨row, s, by simp [List.range_zero, move_row_pass], rfl, hComp, hFlags,
      fun i _ => rfl, by omega, Nat.le_refl _, by omega, Or.inl ⟨rfl, rfl⟩, ?_⟩
    intro hq
    rw [hq.2.1] at hq
    simp at hq
  | succ k ih =>
    intro row s hlen hk hComp hFlags
    rw [List.range_succ, List.reverse_append]
    simp only [List.reverse_singleton, List.singleton_append]
    rw [move_row_pass, getElem?_eq_some_cellD row k (by omega)]
    dsimp only
    by_cases hskip : (cellD row k).value = 0 ∨ w - 1 ≤ k
    · rw [if_pos hskip]
      apply ih row s hlen (by omega) ?_ (FlagsIn_mono k (k + 1) row (by omega) hFlags)
      rcases hskip with hz | hwall
      · exact Comp_ext k row hComp (Or.inl hz)
      · intro i j h1 h2 h3 _
        omega
    · rw [if_neg hskip]
      push_neg at hskip
      obtain ⟨hnz, hwall⟩ := hskip
      have hA : (cellD row k).added = false := by
        by_contra hh
        rw [Bool.not_eq_false] at hh
        have := hFlags k hh
        omega
      obtain ⟨row₁, s₁, heval, hp⟩ := mctr_spec w (w - 1 - k) k row s rfl hlen
        (by omega) hComp hFlags hnz hA
      rw [heval]
      dsimp only
      obtain ⟨p1, p2, p3, p4, p5, p6, p7, p8, p9, p10⟩ := hp
      obtain ⟨row₂, s₂, heval2, hq⟩ := ih row₁ s₁ (by rw [p1, hlen]) (by omega) p2
        (FlagsIn_mono k (k + 1) row₁ (by omega) p3)
      obtain ⟨q1, q2, q3, q4, q5, q6, q7, q8, q9⟩ := hq
      refine ⟨row₂, s₂, heval2, q1.trans p1, q2, q3, ?_, by omega,
        Nat.le_trans p6 q6, by omega, ?_, ?_⟩
      · intro i hadd
        have hstep := p4 i hadd
        have hadd1 : (cellD row₁ i).added = true := by rw [hstep]; exact hadd
        rw [q4 i hadd1, hstep]
      · rcases p8 with ⟨hr1, hs1⟩ | hm1
        · rcases q8 with ⟨hr2, hs2⟩ | hm2
          · exact Or.inl ⟨hr2.trans hr1, hs2.trans hs1⟩
          · exact Or.inr hm2
        · rcases q8 with ⟨hr2, _⟩ | hm2
          · right
            rw [hr2]
            exact hm1
          · exact Or.inr hm2
      · intro ⟨r1, r2, r3⟩
        by_cases hm1 : rowMoved row₁ = true
        · have := p9 ⟨by omega, hm1, r3⟩
          omega
        · have hm1' : rowMoved row₁ = false := by
            rw [Bool.not_eq_true] at hm1
            exact hm1
          have := q9 ⟨by omega, r2, hm1'⟩
          omega

/-! ### Grid-level helper lemmas -/

theorem countP_lt_length_of_mem (p : Cell → Bool) (l : List Cell) (c : Cell)
    (hc : c ∈ l) (hp : p c = false) : l.countP p < l.length := by
  rcases Nat.lt_or_ge (l.countP p) l.length with h | h
  · exact h
  · exfalso
    have heq : l.countP p = l.length := Nat.le_antisymm (List.countP_le_length _) h
    rw [List.countP_eq_length] at heq
    rw [heq c hc] at hp
    simp at hp

theorem exists_not_p_of_countP_lt (p : Cell → Bool) (l : List Cell)
    (h : l.countP p < l.length) : ∃ c ∈ l, p c = false := by
  by_contra hc
  push_neg at hc
  have : l.countP p = l.length := by
    rw [List.countP_eq_length]
    intro a ha
    have := hc a ha
    simpa [Bool.not_eq_false] using this
  omega

theorem rowMoved_flatten (g : List (List Cell)) :
    rowMoved g.flatten = true ↔ ∃ r ∈ g, rowMoved r = true := by
  unfold rowMoved
  rw [List.any_eq_true]
  constructor
  · rintro ⟨c, hc, hm⟩
    rw [List.mem_flatten] at hc
    obtain ⟨r, hr, hcr⟩ := hc
    exact ⟨r, hr, List.any_eq_true.mpr ⟨c, hcr, hm⟩⟩
  · rintro ⟨r, hr, hm⟩
    rw [List.any_eq_true] at hm
    obtain ⟨c, hcr, hc⟩ := hm
    exact ⟨c, List.mem_flatten.mpr ⟨r, hr, hcr⟩, hc⟩

theorem set_self_of_getElem? (l : List (List Cell)) (n : Nat) (a : List Cell)
    (h : l[n]? = some a) : l.set n a = l := by
  apply List.ext_getElem?
  intro m
  rw [List.getElem?_set]
  by_cases hm : n = m
  · subst hm
    have : n < l.length := (List.getElem?_eq_some.mp h).1
    rw [if_pos rfl, if_pos this, h]
  · rw [if_neg hm]

theorem getElem?_set_ne (l : List (List Cell)) (n m : Nat) (a : List Cell)
    (h : n ≠ m) : (l.set n a)[m]? = l[m]? := by
  rw [List.getElem?_set, if_neg h]

theorem countP_flatten_set (p : Cell → Bool) (g : List (List Cell)) (y : Nat)
    (r row : List Cell) (hy : g[y]? = some row) :
    ((g.set y r).flatten).countP p + row.countP p =
      g.flatten.countP p + r.countP p := by
  have hylen : y < g.length := (List.getElem?_eq_some.mp hy).1
  rw [List.countP_flatten, List.countP_flatten, List.map_set]
  have hsum := sum_set_nat (g.map (List.countP p)) y (r.countP p) (by simpa using hylen)
  rw [List.getD_eq_getElem?_getD, List.getElem?_map, hy] at hsum
  simpa using hsum

theorem sumf_flatten_set (f : Cell → Nat) (g : List (List Cell)) (y : Nat)
    (r row : List Cell) (hy : g[y]? = some row) :
    ((g.set y r).flatten.map f).sum + (row.map f).sum =
      (g.flatten.map f).sum + (r.map f).sum := by
  have hylen : y < g.length := (List.getElem?_eq_some.mp hy).1
  rw [List.map_flatten, List.map_flatten, List.sum_flatten, List.sum_flatten,
    List.map_set, List.map_set]
  have hsum := sum_set_nat ((g.map (List.map f)).map List.sum) y ((r.map f).sum)
    (by simpa using hylen)
  rw [List.getD_eq_getElem?_getD, List.getElem?_map, List.getElem?_map, hy] at hsum
  simpa using hsum

theorem length_flatten_set (g : List (List Cell)) (y : Nat)
    (r row : List Cell) (hy : g[y]? = some row) :
    ((g.set y r).flatten).length + row.length = g.flatten.length + r.length := by
  have hylen : y < g.length := (List.getElem?_eq_some.mp hy).1
  rw [List.length_flatten, List.length_flatten, List.map_set]
  have hsum := sum_set_nat (g.map List.length) y r.length (by simpa using hylen)
  rw [List.getD_eq_getElem?_getD, List.getElem?_map, hy] at hsum
  simpa using hsum

theorem ClearRow.flagsIn (r : List Cell) (h : ClearRow r) (a : Nat) : FlagsIn a r := by
  intro i hi
  rw [(h i).1] at hi
  exact absurd hi (by simp)

theorem ClearRow.rowMoved_eq_false (r : List Cell) (h : ClearRow r) :
    rowMoved r = false := by
  unfold rowMoved
  rw [List.any_eq_false]
  intro c hc
  obtain ⟨i, hi⟩ := List.mem_iff_getElem?.mp hc
  rw [← cellD_eq_of_getElem? r i c hi]
  simp [(h i).2]

theorem ClearRow.addedCount_eq_zero (r : List Cell) (h : ClearRow r) :
    addedCount r = 0 := by
  unfold addedCount
  rw [List.countP_eq_zero]
  intro c hc
  obtain ⟨i, hi⟩ := List.mem_iff_getElem?.mp hc
  rw [← cellD_eq_of_getElem? r i c hi]
  simp [(h i).1]

theorem ClearRow.sumAdded_eq_zero (r : List Cell) (h : ClearRow r) :
    sumAdded r = 0 := by
  unfold sumAdded
  rw [List.sum_eq_zero]
  intro v hv
  rw [List.mem_map] at hv
  obtain ⟨c, hc, rfl⟩ := hv
  obtain ⟨i, hi⟩ := List.mem_iff_getElem?.mp hc
  rw [← cellD_eq_of_getElem? r i c hi]
  simp [(h i).1]

/-- Full specification of the `y` loop of `Matrix.move`: success and the
aggregate bookkeeping over the whole grid. -/

theorem all_rows_spec (w : Nat) :
    ∀ (ys : List Nat) (g : List (List Cell)) (s : Nat), ys.Nodup →
    (∀ y ∈ ys, y < g.length) → Rect g w →
    (∀ r ∈ g, FlagsIn 0 r) →
    (∀ y ∈ ys, ∀ r, g[y]? = some r → ClearRow r) →
    ∃ g' s', move_all_rows w ys g s = some (g', s') ∧
      g'.length = g.length ∧
      Rect g' w ∧
      g'.flatten.length = g.flatten.length ∧
      (∀ r' ∈ g', FlagsIn 0 r') ∧
      nzCount g'.flatten + addedCount g'.flatten =
        nzCount g.flatten + addedCount g.flatten ∧
      addedCount g.flatten ≤ addedCount g'.flatten ∧
      s' + sumAdded g.flatten = s + sumAdded g'.flatten ∧
      ((g' = g ∧ s' = s) ∨ rowMoved g'.flatten = true) ∧
      ((addedCount g'.flatten = addedCount g.flatten ∧ rowMoved g'.flatten = true ∧
        rowMoved g.flatten = false) → nzCount g'.flatten < g'.flatten.length) := by
  intro ys
  induction ys with
  | nil =>
    intro g s _ _ _ hflags _
    refine ⟨g, s, rfl, rfl, by assumption, rfl, hflags, by omega, Nat.le_refl _,
      by omega, Or.inl ⟨rfl, rfl⟩, ?_⟩
    intro hq
    rw [hq.2.1] at hq
    simp at hq
  | cons y ys ih =>
    intro g s hnd hbound hrect hflags hclear
    have hy : y < g.length := hbound y (by simp)
    obtain ⟨row, hrow⟩ : ∃ r, g[y]? = some r := ⟨_, List.getElem?_eq_getElem hy⟩
    have hrowlen : row.length = w := hrect row (List.getElem?_mem hrow)
    have hrowclear : ClearRow row := hclear y (by simp) row hrow
    obtain ⟨row₁, s₁, heval, rp⟩ := row_pass_spec w w row s hrowlen (Nat.le_refl w)
      (Comp_of_big w row (by omega)) (hrowclear.flagsIn row w)
    obtain ⟨r1, r2, r3, r4, r5, r6, r7, r8, r9⟩ := rp
    rw [move_all_rows, hrow]
    dsimp only
    rw [heval]
    dsimp only
    have hnd' : ys.Nodup := (List.nodup_cons.mp hnd).2
    have hyns : y ∉ ys := (List.nodup_cons.mp hnd).1
    have hG₁rect : Rect (g.set y row₁) w := by
      intro r hr
      rcases List.mem_or_eq_of_mem_set hr with hmem | heq
      · exact hrect r hmem
      · rw [heq, r1, hrowlen]
    have hG₁flags : ∀ r ∈ g.set y row₁, FlagsIn 0 r := by
      intro r hr
      rcases List.mem_or_eq_of_mem_set hr with hmem | heq
      · exact hflags r hmem
      · rw [heq]
        exact r3
    have hG₁clear : ∀ y' ∈ ys, ∀ r, (g.set y row₁)[y']? = some r → ClearRow r := by
      intro y' hy' r hr
      rw [getElem?_set_ne g y y' row₁ (fun h => hyns (h ▸ hy'))] at hr
      exact hclear y' (by simp [hy']) r hr
    obtain ⟨g', s'', heval2, c1, c2, c3, c4, c5, c6, c7, c8, c9⟩ :=
      ih (g.set y row₁) s₁ hnd'
        (by intro y' hy'; simpa using hbound y' (by simp [hy'])) hG₁rect hG₁flags hG₁clear
    have gN := countP_flatten_set (fun c => decide (c.value ≠ 0)) g y row₁ row hrow
    have gA := countP_flatten_set (·.added) g y row₁ row hrow
    have gS := sumf_flatten_set (fun c => if c.added then c.value else 0) g y row₁ row hrow
    have gL := length_flatten_set g y row₁ row hrow
    have gN' : nzCount (g.set y row₁).flatten + nzCount row =
        nzCount g.flatten + nzCount row₁ := gN
    have gA' : addedCount (g.set y row₁).flatten + addedCount row =
        addedCount g.flatten + addedCount row₁ := gA
    have gS' : sumAdded (g.set y row₁).flatten + sumAdded row =
        sumAdded g.flatten + sumAdded row₁ := gS
    have hrow₁mem : row₁ ∈ g.set y row₁ :=
      List.getElem?_mem (by rw [List.getElem?_set, if_pos rfl, if_pos (by simpa using hy)])
    refine ⟨g', s'', heval2, by rw [c1]; simp, c2, by omega, c4, by omega, by omega,
      by omega, ?_, ?_⟩
    · rcases r8 with ⟨hr1, hs1⟩ | hm1
      · rw [hr1, set_self_of_getElem? g y row hrow] at c8
        rcases c8 with ⟨hg, hs⟩ | hm
        · exact Or.inl ⟨hg, by omega⟩
        · exact Or.inr hm
      · rcases c8 with ⟨hg, _⟩ | hm
        · right
          rw [hg]
          exact (rowMoved_flatten _).mpr ⟨row₁, hrow₁mem, hm1⟩
        · exact Or.inr hm
    · rintro ⟨q1, q2, q3⟩
      have haddEq : addedCount (g.set y row₁).flatten = addedCount g.flatten := by omega
      have haddRowEq : addedCount row₁ = addedCount row := by omega
      have hrowmv : rowMoved row = false := by
        rcases Bool.eq_false_or_eq_true (rowMoved row) with h | h
        · exact absurd ((rowMoved_flatten g).mpr ⟨row, List.getElem?_mem hrow, h⟩)
            (by rw [q3]; simp)
        · exact h
      rcases Bool.eq_false_or_eq_true (rowMoved row₁) with hm1 | hm1
      case inr =>
        have hG₁mv : rowMoved (g.set y row₁).flatten = false := by
          rcases Bool.eq_false_or_eq_true (rowMoved (g.set y row₁).flatten) with h | h
          · obtain ⟨r, hrmem, hrmv⟩ := (rowMoved_flatten _).mp h
            rcases List.mem_or_eq_of_mem_set hrmem with hmem | heq
            · exact absurd ((rowMoved_flatten g).mpr ⟨r, hmem, hrmv⟩) (by rw [q3]; simp)
            · rw [heq, hm1] at hrmv
              simp at hrmv
          · exact h
        exact c9 ⟨by omega, q2, hG₁mv⟩
      case inl =>
        have hnzrow₁ : nzCount row₁ < w := r9 ⟨haddRowEq, hm1, hrowmv⟩
        obtain ⟨c, hcmem, hcp⟩ := exists_not_p_of_countP_lt _ row₁ (by
          show nzCount row₁ < row₁.length
          rw [r1, hrowlen]
          exact hnzrow₁)
        have hcflat : c ∈ (g.set y row₁).flatten :=
          List.mem_flatten.mpr ⟨row₁, hrow₁mem, hcmem⟩
        have hG₁nz : nzCount (g.set y row₁).flatten < (g.set y row₁).flatten.length :=
          countP_lt_length_of_mem _ _ c hcflat hcp
        omega

/-! ### Bridging lemmas between positional and membership formulations -/

theorem ClearRow_iff_mem (r : List Cell) :
    ClearRow r ↔ ∀ c ∈ r, c.added = false ∧ c.moved = false := by
  constructor
  · intro h c hc
    obtain ⟨i, hi⟩ := List.mem_iff_getElem?.mp hc
    rw [← cellD_eq_of_getElem? r i c hi]
    exact h i
  · intro h i
    rcases Nat.lt_or_ge i r.length with hi | hi
    · exact h (cellD r i) (cellD_mem r i hi)
    · rw [cellD_oob r i hi]
      exact ⟨rfl, rfl⟩

theorem FlagsIn_zero_iff_mem (r : List Cell) :
    FlagsIn 0 r ↔ ∀ c ∈ r, c.added = true → c.value ≠ 0 := by
  constructor
  · intro h c hc hadd
    obtain ⟨i, hi⟩ := List.mem_iff_getElem?.mp hc
    have := h i (by rw [cellD_eq_of_getElem? r i c hi]; exact hadd)
    rw [cellD_eq_of_getElem? r i c hi] at this
    exact this.2
  · intro h i hadd
    rcases Nat.lt_or_ge i r.length with hi | hi
    · exact ⟨Nat.zero_le _, h (cellD r i) (cellD_mem r i hi) hadd⟩
    · rw [cellD_oob r i hi] at hadd
      simp at hadd

theorem perm_any (p : Cell → Bool) (l l' : List Cell) (h : l.Perm l') :
    l.any p = l'.any p := by
  have hiff : l.any p = true ↔ l'.any p = true := by
    rw [List.any_eq_true, List.any_eq_true]
    constructor
    · rintro ⟨c, hc, hp⟩
      exact ⟨c, h.mem_iff.mp hc, hp⟩
    · rintro ⟨c, hc, hp⟩
      exact ⟨c, h.mem_iff.mpr hc, hp⟩
  cases hl : l.any p <;> cases hl' : l'.any p <;> simp_all

/-! ### Statistics preserved by `prepare_cells_to_move` and the rotations -/

theorem prepare_length (g : List (List Cell)) :
    (prepare_cells_to_move g).length = g.length := by
  simp [prepare_cells_to_move]

theorem prepare_rect (g : List (List Cell)) (w : Nat) (h : Rect g w) :
    Rect (prepare_cells_to_move g) w := by
  intro r hr
  rw [prepare_cells_to_move, List.mem_map] at hr
  obtain ⟨r₀, hr₀, rfl⟩ := hr
  simpa using h r₀ hr₀

theorem prepare_flatten (g : List (List Cell)) :
    (prepare_cells_to_move g).flatten =
      g.flatten.map (fun c => { c with added := false, moved := false, new := false }) := by
  rw [prepare_cells_to_move, List.map_flatten]

theorem prepare_cells_clear (g : List (List Cell)) :
    ∀ c ∈ (prepare_cells_to_move g).flatten,
      c.added = false ∧ c.moved = false ∧ c.new = false := by
  intro c hc
  rw [prepare_flatten, List.mem_map] at hc
  obtain ⟨c₀, _, rfl⟩ := hc
  exact ⟨rfl, rfl, rfl⟩

theorem prepare_nzCount (g : List (List Cell)) :
    nzCount (prepare_cells_to_move g).flatten = nzCount g.flatten := by
  rw [prepare_flatten]
  unfold nzCount
  rw [List.countP_map]
  rfl

theorem prepare_addedCount (g : List (List Cell)) :
    addedCount (prepare_cells_to_move g).flatten = 0 := by
  unfold addedCount
  rw [List.countP_eq_zero]
  intro c hc
  simp [(prepare_cells_clear g c hc).1]

theorem prepare_sumAdded (g : List (List Cell)) :
    sumAdded (prepare_cells_to_move g).flatten = 0 := by
  unfold sumAdded
  apply List.sum_eq_zero
  intro v hv
  rw [List.mem_map] at hv
  obtain ⟨c, hc, rfl⟩ := hv
  simp [(prepare_cells_clear g c hc).1]

theorem prepare_rowMoved (g : List (List Cell)) :
    rowMoved (prepare_cells_to_move g).flatten = false := by
  unfold rowMoved
  rw [List.any_eq_false]
  intro c hc
  simp [(prepare_cells_clear g c hc).2.1]

theorem prepare_values (g : List (List Cell)) :
    (prepare_cells_to_move g).map (List.map Cell.value) = g.map (List.map Cell.value) := by
  rw [prepare_cells_to_move, List.map_map]
  apply List.map_congr_left
  intro r _
  simp

theorem flatten_map_reverse_perm (X : List (List Cell)) :
    ((X.map List.reverse).flatten).Perm X.flatten := by
  induction X with
  | nil => rfl
  | cons r rest ih =>
    simp only [List.map_cons, List.flatten_cons]
    exact List.Perm.append (List.reverse_perm r) ih

theorem flatten_rotate_cw_perm (g : List (List Cell)) (w : Nat) (hrect : Rect g w) :
    (rotate_cw g).flatten.Perm g.flatten := by
  unfold rotate_cw
  exact (pyZip_flatten_perm w g.reverse (rect_reverse g w hrect)).trans
    (List.Perm.flatten (List.reverse_perm g))

theorem flatten_rotate_ccw_perm (g : List (List Cell)) (w : Nat) (hrect : Rect g w) :
    (rotate_ccw g).flatten.Perm g.flatten := by
  rw [rotate_ccw_eq]
  exact ((List.Perm.flatten (List.reverse_perm _)).trans
    (flatten_map_reverse_perm (rotate_cw g))).trans (flatten_rotate_cw_perm g w hrect)

theorem flatten_rot_forward_perm (d : Direction) (g : List (List Cell)) (w : Nat)
    (hrect : Rect g w) : (rot_forward d g).flatten.Perm g.flatten := by
  cases d with
  | UP => exact flatten_rotate_cw_perm g w hrect
  | DOWN => exact flatten_rotate_ccw_perm g w hrect
  | LEFT =>
    by_cases hne : g = []
    · subst hne
      simp [rot_forward, rotate_cw, pyZip_nil]
    · exact (flatten_rotate_cw_perm (rotate_cw g) g.length
        (rect_rotate_cw g w hrect hne)).trans (flatten_rotate_cw_perm g w hrect)
  | RIGHT => exact List.Perm.refl _

theorem flatten_rot_backward_perm (d : Direction) (g : List (List Cell)) (w : Nat)
    (hrect : Rect g w) : (rot_backward d g).flatten.Perm g.flatten := by
  cases d with
  | UP => exact flatten_rotate_ccw_perm g w hrect
  | DOWN => exact flatten_rotate_cw_perm g w hrect
  | LEFT =>
    by_cases hne : g = []
    · subst hne
      simp [rot_backward, rotate_ccw, pyZip_nil]
    · exact (flatten_rotate_ccw_perm (rotate_ccw g) g.length
        (rect_rotate_ccw g w hrect hne)).trans (flatten_rotate_ccw_perm g w hrect)
  | RIGHT => exact List.Perm.refl _

theorem length_rotate_ccw2 (g : List (List Cell)) (w : Nat)
    (hrect : Rect g w) (hne : g ≠ []) (hw : 0 < w) :
    (rotate_ccw (rotate_ccw g)).length = g.length := by
  have h1 := length_rotate_ccw g w hrect hne
  have hYne : rotate_ccw g ≠ [] := List.length_pos.mp (by omega)
  rw [length_rotate_ccw (rotate_ccw g) g.length (rect_rotate_ccw g w hrect hne) hYne]

theorem rect_rotate_ccw2 (g : List (List Cell)) (w : Nat)
    (hrect : Rect g w) (hne : g ≠ []) (hw : 0 < w) :
    Rect (rotate_ccw (rotate_ccw g)) w := by
  have h1 := length_rotate_ccw g w hrect hne
  have hYne : rotate_ccw g ≠ [] := List.length_pos.mp (by omega)
  have := rect_rotate_ccw (rotate_ccw g) g.length (rect_rotate_ccw g w hrect hne) hYne
  rwa [h1] at this

theorem rot_forward_dims (d : Direction) (g : List (List Cell)) (w : Nat)
    (hrect : Rect g w) (hne : g ≠ []) (hw : 0 < w)
    (hd : w = g.length ∨ d = Direction.LEFT ∨ d = Direction.RIGHT) :
    (rot_forward d g).length = g.length ∧ Rect (rot_forward d g) w := by
  cases d with
  | UP =>
    have hsq : w = g.length := by
      rcases hd with h | h | h
      · exact h
      · exact absurd h (by simp)
      · exact absurd h (by simp)
    constructor
    · rw [show rot_forward Direction.UP g = rotate_cw g from rfl,
        length_rotate_cw g w hrect hne]
      omega
    · have := rect_rotate_cw g w hrect hne
      rwa [← hsq] at this
  | DOWN =>
    have hsq : w = g.length := by
      rcases hd with h | h | h
      · exact h
      · exact absurd h (by simp)
      · exact absurd h (by simp)
    constructor
    · rw [show rot_forward Direction.DOWN g = rotate_ccw g from rfl,
        length_rotate_ccw g w hrect hne]
      omega
    · have := rect_rotate_ccw g w hrect hne
      rwa [← hsq] at this
  | LEFT =>
    exact ⟨length_rotate_cw2 g w hrect hne hw, rect_rotate_cw2 g w hrect hne hw⟩
  | RIGHT => exact ⟨rfl, hrect⟩

theorem rot_backward_dims (d : Direction) (g : List (List Cell)) (w : Nat)
    (hrect : Rect g w) (hne : g ≠ []) (hw : 0 < w)
    (hd : w = g.length ∨ d = Direction.LEFT ∨ d = Direction.RIGHT) :
    (rot_backward d g).length = g.length ∧ Rect (rot_backward d g) w := by
  cases d with
  | UP =>
    have hsq : w = g.length := by
      rcases hd with h | h | h
      · exact h
      · exact absurd h (by simp)
      · exact absurd h (by simp)
    constructor
    · rw [show rot_backward Direction.UP g = rotate_ccw g from rfl,
        length_rotate_ccw g w hrect hne]
      omega
    · have := rect_rotate_ccw g w hrect hne
      rwa [← hsq] at this
  | DOWN =>
    have hsq : w = g.length := by
      rcases hd with h | h | h
      · exact h
      · exact absurd h (by simp)
      · exact absurd h (by simp)
    constructor
    · rw [show rot_backward Direction.DOWN g = rotate_cw g from rfl,
        length_rotate_cw g w hrect hne]
      omega
    · have := rect_rotate_cw g w hrect hne
      rwa [← hsq] at this
  | LEFT =>
    exact ⟨length_rotate_ccw2 g w hrect hne hw, rect_rotate_ccw2 g w hrect hne hw⟩
  | RIGHT => exact ⟨rfl, hrect⟩

/-! ### `find_value` and `add_new_value` -/

theorem find_value_eq_nil_iff (m : Matrix) (v : Nat) :
    find_value m v = [] ↔ ∀ c ∈ m.matrix.flatten, c.value ≠ v := by
  unfold find_value
  rw [List.flatten_eq_nil_iff]
  constructor
  · intro h c hc hv
    rw [List.mem_flatten] at hc
    obtain ⟨r, hr, hcr⟩ := hc
    obtain ⟨y, hy⟩ := List.mem_iff_getElem?.mp hr
    obtain ⟨x, hx⟩ := List.mem_iff_getElem?.mp hcr
    have hmem : (y, r) ∈ m.matrix.enum := List.mk_mem_enum_iff_getElem?.mpr hy
    have hnil := h _ (List.mem_map.mpr ⟨(y, r), hmem, rfl⟩)
    rw [List.filterMap_eq_nil_iff] at hnil
    have := hnil (x, c) (List.mk_mem_enum_iff_getElem?.mpr hx)
    simp [hv] at this
  · intro h l hl
    rw [List.mem_map] at hl
    obtain ⟨⟨y, r⟩, hyr, rfl⟩ := hl
    rw [List.filterMap_eq_nil_iff]
    rintro ⟨x, c⟩ hxc
    have hcr : c ∈ r := List.snd_mem_of_mem_enum hxc
    have hrmem : r ∈ m.matrix := List.snd_mem_of_mem_enum hyr
    have hcfl : c ∈ m.matrix.flatten := List.mem_flatten.mpr ⟨r, hrmem, hcr⟩
    simp [h c hcfl]

theorem find_value_mem (m : Matrix) (v : Nat) (xy : Nat × Nat)
    (h : xy ∈ find_value m v) :
    ∃ row c, m.matrix[xy.2]? = some row ∧ row[xy.1]? = some c ∧ c.value = v := by
  unfold find_value at h
  rw [List.mem_flatten] at h
  obtain ⟨l, hl, hxy⟩ := h
  rw [List.mem_map] at hl
  obtain ⟨⟨y, row⟩, hyrow, rfl⟩ := hl
  rw [List.mem_filterMap] at hxy
  obtain ⟨⟨x, c⟩, hxc, hsome⟩ := hxy
  by_cases hv : c.value = v
  · simp only [hv, if_pos] at hsome
    have hxy' : xy = (x, y) := by
      simpa using hsome.symm
    subst hxy'
    exact ⟨row, c, List.mk_mem_enum_iff_getElem?.mp hyrow,
      List.mk_mem_enum_iff_getElem?.mp hxc, hv⟩
  · simp [hv] at hsome

theorem rowMoved_iff_countP (l : List Cell) :
    rowMoved l = true ↔ 0 < l.countP (·.moved) := by
  unfold rowMoved
  rw [List.any_eq_true, List.countP_pos_iff]

theorem has_moved_eq_rowMoved_flatten (m : Matrix) :
    has_moved m = rowMoved m.matrix.flatten := by
  have hiff : has_moved m = true ↔ rowMoved m.matrix.flatten = true := by
    unfold has_moved
    rw [List.any_eq_true, rowMoved_flatten]
    constructor
    · rintro ⟨r, hr, hm⟩
      exact ⟨r, hr, hm⟩
    · rintro ⟨r, hr, hm⟩
      exact ⟨r, hr, hm⟩
  cases h1 : has_moved m <;> cases h2 : rowMoved m.matrix.flatten <;> simp_all

theorem add_new_value_spec (m : Matrix) (pick : Nat) (four : Bool)
    (hfree : find_value m 0 ≠ [])
    (hflags : ∀ r ∈ m.matrix, FlagsIn 0 r) :
    (add_new_value m pick four).width = m.width ∧
    (add_new_value m pick four).height = m.height ∧
    (add_new_value m pick four).score = m.score ∧
    (add_new_value m pick four).matrix.length = m.matrix.length ∧
    (∀ w, Rect m.matrix w → Rect (add_new_value m pick four).matrix w) ∧
    (add_new_value m pick four).matrix.flatten.length = m.matrix.flatten.length ∧
    nzCount (add_new_value m pick four).matrix.flatten = nzCount m.matrix.flatten + 1 ∧
    addedCount (add_new_value m pick four).matrix.flatten = addedCount m.matrix.flatten ∧
    sumAdded (add_new_value m pick four).matrix.flatten = sumAdded m.matrix.flatten ∧
    (add_new_value m pick four).matrix.flatten.countP (·.moved) =
      m.matrix.flatten.countP (·.moved) := by
  have hlen : 0 < (find_value m 0).length := List.length_pos.mpr hfree
  have hmod : pick % (find_value m 0).length < (find_value m 0).length :=
    Nat.mod_lt _ hlen
  have hxyget : (find_value m 0)[pick % (find_value m 0).length]? =
      some ((find_value m 0).getD (pick % (find_value m 0).length) (0, 0)) := by
    rw [List.getD_eq_getElem?_getD, List.getElem?_eq_getElem hmod]
    rfl
  have hxymem := List.getElem?_mem hxyget
  obtain ⟨row₀, c₀, hrow₀, hc₀, hv₀⟩ := find_value_mem m 0 _ hxymem
  have hx₀ : ((find_value m 0).getD (pick % (find_value m 0).length) (0, 0)).1 <
      row₀.length := (List.getElem?_eq_some.mp hc₀).1
  have hc₀added : c₀.added = false := by
    have hrmem : row₀ ∈ m.matrix := List.getElem?_mem hrow₀
    have hOK := (FlagsIn_zero_iff_mem row₀).mp (hflags row₀ hrmem) c₀
      (List.getElem?_mem hc₀)
    rcases Bool.eq_false_or_eq_true c₀.added with h | h
    · exact absurd hv₀ (hOK h)
    · exact h
  unfold add_new_value
  rw [if_neg (by simpa [List.isEmpty_iff] using hfree)]
  dsimp only
  rw [getD_eq_of_getElem? _ _ [] row₀ hrow₀, getD_eq_of_getElem? _ _ default c₀ hc₀]
  have hgN := countP_flatten_set (fun c => decide (c.value ≠ 0)) m.matrix
    ((find_value m 0).getD (pick % (find_value m 0).length) (0, 0)).2
    (row₀.set ((find_value m 0).getD (pick % (find_value m 0).length) (0, 0)).1
      { c₀ with value := if four then 4 else 2, new := true }) row₀ hrow₀
  have hgA := countP_flatten_set (·.added) m.matrix
    ((find_value m 0).getD (pick % (find_value m 0).length) (0, 0)).2
    (row₀.set ((find_value m 0).getD (pick % (find_value m 0).length) (0, 0)).1
      { c₀ with value := if four then 4 else 2, new := true }) row₀ hrow₀
  have hgM := countP_flatten_set (·.moved) m.matrix
    ((find_value m 0).getD (pick % (find_value m 0).length) (0, 0)).2
    (row₀.set ((find_value m 0).getD (pick % (find_value m 0).length) (0, 0)).1
      { c₀ with value := if four then 4 else 2, new := true }) row₀ hrow₀
  have hgS := sumf_flatten_set (fun c => if c.added then c.value else 0) m.matrix
    ((find_value m 0).getD (pick % (find_value m 0).length) (0, 0)).2
    (row₀.set ((find_value m 0).getD (pick % (find_value m 0).length) (0, 0)).1
      { c₀ with value := if four then 4 else 2, new := true }) row₀ hrow₀
  have hgL := length_flatten_set m.matrix
    ((find_value m 0).getD (pick % (find_value m 0).length) (0, 0)).2
    (row₀.set ((find_value m 0).getD (pick % (find_value m 0).length) (0, 0)).1
      { c₀ with value := if four then 4 else 2, new := true }) row₀ hrow₀
  have hcD : cellD row₀ ((find_value m 0).getD (pick % (find_value m 0).length) (0, 0)).1
      = c₀ := cellD_eq_of_getElem? _ _ _ hc₀
  have hrN := nzCount_set row₀
    ((find_value m 0).getD (pick % (find_value m 0).length) (0, 0)).1
    { c₀ with value := if four then 4 else 2, new := true } hx₀
  have hrA := addedCount_set row₀
    ((find_value m 0).getD (pick % (find_value m 0).length) (0, 0)).1
    { c₀ with value := if four then 4 else 2, new := true } hx₀
  have hrS := sumAdded_set row₀
    ((find_value m 0).getD (pick % (find_value m 0).length) (0, 0)).1
    { c₀ with value := if four then 4 else 2, new := true } hx₀
  have hrM := countP_set_add (·.moved) row₀
    ((find_value m 0).getD (pick % (find_value m 0).length) (0, 0)).1
    { c₀ with value := if four then 4 else 2, new := true } hx₀
  rw [hcD] at hrN hrA hrS hrM
  have hval4 : (if four then (4 : Nat) else 2) ≠ 0 := by cases four <;> simp
  dsimp only at hrN hrA hrS hrM
  have hnz0 : ¬(c₀.value ≠ 0) := by simp [hv₀]
  have hcaF : ¬(c₀.added = true) := by simp [hc₀added]
  rw [if_neg hnz0, if_pos hval4] at hrN
  rw [if_neg hcaF, if_neg hcaF] at hrS
  have hrL : (row₀.set ((find_value m 0).getD (pick % (find_value m 0).length) (0, 0)).1
      { c₀ with value := if four then 4 else 2, new := true }).length = row₀.length := by
    simp
  refine ⟨rfl, rfl, rfl, by simp, ?_, by omega,
    by unfold nzCount at hrN ⊢; omega,
    by unfold addedCount at hrA ⊢; omega,
    by unfold sumAdded at hrS ⊢; omega,
    by omega⟩
  intro w hw r hr
  rcases List.mem_or_eq_of_mem_set hr with hmem | heq
  · exact hw r hmem
  · rw [heq]
    simp only [List.length_set]
    exact hw row₀ (List.getElem?_mem hrow₀)

theorem rot_backward_rot_forward (d : Direction) (g : List (List Cell)) (w : Nat)
    (hrect : Rect g w) (hw : 0 < w) (hh : 0 < g.length) :
    rot_backward d (rot_forward d g) = g := by
  have hne : g ≠ [] := List.length_pos.mp hh
  cases d with
  | UP => exact rotate_ccw_rotate_cw g w hrect hw
  | DOWN => exact rotate_cw_rotate_ccw g w hrect hw
  | LEFT =>
    show rotate_ccw (rotate_ccw (rotate_cw (rotate_cw g))) = g
    have hX : Rect (rotate_cw g) g.length := rect_rotate_cw g w hrect hne
    rw [rotate_ccw_rotate_cw (rotate_cw g) g.length hX hh]
    exact rotate_ccw_rotate_cw g w hrect hw
  | RIGHT => rfl

/-- The complete behaviour of `Matrix.move` on a well-formed matrix, for
every direction when the matrix is square and for LEFT/RIGHT on any
rectangle: the call returns normally, the dimensions are preserved, the
score grows exactly by the sum of the values of the merged cells, and the
non-empty cell count obeys the merge/spawn bookkeeping. -/

theorem move_spec (m : Matrix) (d : Direction) (pick : Nat) (four : Bool)
    (hWF : WF m) (hw : 0 < m.width) (hh : 0 < m.height)
    (hd : m.width = m.height ∨ d = Direction.LEFT ∨ d = Direction.RIGHT) :
    ∃ m', move m d pick four = some m' ∧
      m'.width = m.width ∧ m'.height = m.height ∧ WF m' ∧
      m.score ≤ m'.score ∧
      m'.score = m.score + sumAdded m'.matrix.flatten ∧
      nzCount m'.matrix.flatten + addedCount m'.matrix.flatten =
        nzCount m.matrix.flatten + (if has_moved m' = true then 1 else 0) ∧
      nzCount m'.matrix.flatten ≤ nzCount m.matrix.flatten + 1 ∧
      (has_moved m' = false →
        m' = { m with matrix := prepare_cells_to_move m.matrix }) := by
  obtain ⟨hlenM, hrectM⟩ := hWF
  have hne : m.matrix ≠ [] := List.length_pos.mp (by omega)
  have hPlen : (prepare_cells_to_move m.matrix).length = m.matrix.length :=
    prepare_length m.matrix
  have hPrect : Rect (prepare_cells_to_move m.matrix) m.width :=
    prepare_rect m.matrix m.width hrectM
  have hPne : prepare_cells_to_move m.matrix ≠ [] := by
    apply List.length_pos.mp
    omega
  have hdP : m.width = (prepare_cells_to_move m.matrix).length ∨
      d = Direction.LEFT ∨ d = Direction.RIGHT := by
    rcases hd with h | h | h
    · left
      omega
    · right; left; exact h
    · right; right; exact h
  obtain ⟨hg₁len, hg₁rect⟩ := rot_forward_dims d (prepare_cells_to_move m.matrix)
    m.width hPrect hPne hw hdP
  have hg₁perm := flatten_rot_forward_perm d (prepare_cells_to_move m.matrix)
    m.width hPrect
  have hg₁clear : ∀ c ∈ (rot_forward d (prepare_cells_to_move m.matrix)).flatten,
      c.added = false ∧ c.moved = false ∧ c.new = false := by
    intro c hc
    exact prepare_cells_clear m.matrix c (hg₁perm.mem_iff.mp hc)
  obtain ⟨g₂, s₂, heval, c_len, c_rect, c_flatlen, c_flags, c_cnt, c_mono,
      c_score, c_idmv, c_free⟩ :=
    all_rows_spec m.width (List.range m.height)
      (rot_forward d (prepare_cells_to_move m.matrix)) m.score
      (List.nodup_range m.height)
      (by
        intro y hy
        rw [List.mem_range] at hy
        omega)
      hg₁rect
      (by
        intro r hr
        rw [FlagsIn_zero_iff_mem]
        intro c hc hadd
        exact absurd hadd (by simp [(hg₁clear c (List.mem_flatten.mpr ⟨r, hr, hc⟩)).1]))
      (by
        intro y _ r hr
        rw [ClearRow_iff_mem]
        intro c hc
        have := hg₁clear c (List.mem_flatten.mpr ⟨r, List.getElem?_mem hr, hc⟩)
        exact ⟨this.1, this.2.1⟩)
  have hg₂ne : g₂ ≠ [] := by
    apply List.length_pos.mp
    omega
  have hdg₂ : m.width = g₂.length ∨ d = Direction.LEFT ∨ d = Direction.RIGHT := by
    rcases hd with h | h | h
    · left
      omega
    · right; left; exact h
    · right; right; exact h
  obtain ⟨hGlen, hGrect⟩ := rot_backward_dims d g₂ m.width c_rect hg₂ne hw hdg₂
  have hGperm := flatten_rot_backward_perm d g₂ m.width c_rect
  have hg₁stats :
      nzCount (rot_forward d (prepare_cells_to_move m.matrix)).flatten =
        nzCount m.matrix.flatten ∧
      addedCount (rot_forward d (prepare_cells_to_move m.matrix)).flatten = 0 ∧
      sumAdded (rot_forward d (prepare_cells_to_move m.matrix)).flatten = 0 ∧
      rowMoved (rot_forward d (prepare_cells_to_move m.matrix)).flatten = false := by
    refine ⟨?_, ?_, ?_, ?_⟩
    · rw [show nzCount (rot_forward d (prepare_cells_to_move m.matrix)).flatten =
        nzCount (prepare_cells_to_move m.matrix).flatten from hg₁perm.countP_eq _]
      exact prepare_nzCount m.matrix
    · rw [show addedCount (rot_forward d (prepare_cells_to_move m.matrix)).flatten =
        addedCount (prepare_cells_to_move m.matrix).flatten from hg₁perm.countP_eq _]
      exact prepare_addedCount m.matrix
    · rw [show sumAdded (rot_forward d (prepare_cells_to_move m.matrix)).flatten =
        sumAdded (prepare_cells_to_move m.matrix).flatten from
          (hg₁perm.map _).sum_eq]
      exact prepare_sumAdded m.matrix
    · rw [show rowMoved (rot_forward d (prepare_cells_to_move m.matrix)).flatten =
        rowMoved (prepare_cells_to_move m.matrix).flatten from
          perm_any _ _ _ hg₁perm]
      exact prepare_rowMoved m.matrix
  obtain ⟨hg₁nz, hg₁add, hg₁sum, hg₁mv⟩ := hg₁stats
  have hGnz : nzCount (rot_backward d g₂).flatten = nzCount g₂.flatten :=
    hGperm.countP_eq _
  have hGadd : addedCount (rot_backward d g₂).flatten = addedCount g₂.flatten :=
    hGperm.countP_eq _
  have hGsum : sumAdded (rot_backward d g₂).flatten = sumAdded g₂.flatten :=
    (hGperm.map _).sum_eq
  have hGmv : rowMoved (rot_backward d g₂).flatten = rowMoved g₂.flatten :=
    perm_any _ _ _ hGperm
  have hGflatlen : (rot_backward d g₂).flatten.length = g₂.flatten.length :=
    hGperm.length_eq
  have hphase : move_phase m d =
      some { m with matrix := rot_backward d g₂, score := s₂ } := by
    unfold move_phase
    dsimp only
    rw [heval]
  have hm₂mv : has_moved { m with matrix := rot_backward d g₂, score := s₂ } =
      rowMoved g₂.flatten := by
    rw [has_moved_eq_rowMoved_flatten]
    exact hGmv
  rw [move, hphase]
  dsimp only
  cases hmv : rowMoved g₂.flatten with
  | false =>
    rw [hm₂mv, hmv]
    rw [if_neg Bool.false_ne_true]
    rw [hmv] at c_idmv
    rcases c_idmv with ⟨hgid, hsid⟩ | hcon
    · subst hgid hsid
      rw [rot_backward_rot_forward d (prepare_cells_to_move m.matrix) m.width
        hPrect hw (by omega)]
      refine ⟨_, rfl, rfl, rfl, ?_, Nat.le_refl _, ?_, ?_, ?_, fun _ => rfl⟩
      · constructor
        · simpa [prepare_length] using hlenM
        · exact hPrect
      · dsimp only
        rw [prepare_sumAdded]
        omega
      · have hmvP : has_moved
            { m with matrix := prepare_cells_to_move m.matrix, score := m.score } =
            rowMoved (prepare_cells_to_move m.matrix).flatten :=
          has_moved_eq_rowMoved_flatten _
        dsimp only
        rw [hmvP, prepare_rowMoved, prepare_nzCount, prepare_addedCount]
        simp
      · dsimp only
        rw [prepare_nzCount]
        omega
    · simp at hcon
  | true =>
    rw [hm₂mv, hmv]
    rw [if_pos rfl]
    have hfreecnt : nzCount g₂.flatten < g₂.flatten.length := by
      rcases Nat.eq_zero_or_pos (addedCount g₂.flatten) with ha | ha
      · exact c_free ⟨by omega, hmv, by rw [hg₁mv]⟩
      · have hle : nzCount (rot_forward d (prepare_cells_to_move m.matrix)).flatten ≤
            (rot_forward d (prepare_cells_to_move m.matrix)).flatten.length :=
          List.countP_le_length _
        omega
    have hfree : find_value { m with matrix := rot_backward d g₂, score := s₂ } 0 ≠ [] := by
      intro hnil
      rw [find_value_eq_nil_iff] at hnil
      have hlt : nzCount (rot_backward d g₂).flatten <
          (rot_backward d g₂).flatten.length := by omega
      obtain ⟨c, hc, hcp⟩ := exists_not_p_of_countP_lt _ _ hlt
      have : c.value = 0 := by simpa using hcp
      exact hnil c hc this
    have hflagsG : ∀ r ∈ ({ m with matrix := rot_backward d g₂, score := s₂ } :
        Matrix).matrix, FlagsIn 0 r := by
      intro r hr
      rw [FlagsIn_zero_iff_mem]
      intro c hc hadd
      have hcg₂ : c ∈ g₂.flatten := hGperm.mem_iff.mp (List.mem_flatten.mpr ⟨r, hr, hc⟩)
      obtain ⟨r₂, hr₂, hcr₂⟩ := List.mem_flatten.mp hcg₂
      exact (FlagsIn_zero_iff_mem r₂).mp (c_flags r₂ hr₂) c hcr₂ hadd
    obtain ⟨sp_w, sp_h, sp_sc, sp_len, sp_rect, sp_flatlen, sp_nz, sp_add, sp_sum,
        sp_mv⟩ := add_new_value_spec _ pick four hfree hflagsG
    dsimp only at sp_w sp_h sp_sc sp_len sp_rect sp_flatlen sp_nz sp_add sp_sum sp_mv
    have hmv' : has_moved (add_new_value
        { m with matrix := rot_backward d g₂, score := s₂ } pick four) = true := by
      rw [has_moved_eq_rowMoved_flatten]
      apply (rowMoved_iff_countP _).mpr
      rw [sp_mv]
      apply (rowMoved_iff_countP _).mp
      rw [hGmv]
      exact hmv
    refine ⟨_, rfl, by rw [sp_w], by rw [sp_h], ?_, ?_, ?_, ?_, ?_, ?_⟩
    · constructor
      · rw [sp_len]
        rw [sp_h]
        omega
      · rw [sp_w]
        exact sp_rect m.width hGrect
    · rw [sp_sc]
      omega
    · rw [sp_sc, sp_sum, hGsum]
      omega
    · rw [sp_nz, sp_add, hmv', if_pos rfl, hGnz, hGadd]
      omega
    · rw [sp_nz, hGnz]
      omega
    · rw [hmv']
      intro hcon
      simp at hcon

/-! ### Claim theorems -/

theorem add_new_value_score (m : Matrix) (pick : Nat) (four : Bool) :
    (add_new_value m pick four).score = m.score := by
  unfold add_new_value
  dsimp only
  split <;> rfl

/-- C4 (counterexample): `Cell.__iadd__` applied to amount 0 does set the
`moved` flag, although the claim says adding 0 must set neither flag. -/

theorem c4_iadd_zero_sets_moved :
    (Cell.iadd { value := 0, added := false, moved := false, new := false } 0).moved
      = true := by
  decide

/-- C4 (amended): `Cell.__iadd__` adds the amount to the value, sets
`added` from `false` to `true` exactly when both the prior value and the
amount are non-zero (otherwise it keeps the prior `added`), sets `moved`
unconditionally — even when the amount is 0 — and leaves `new` unchanged. -/

theorem c4_iadd_characterization (c : Cell) (amt : Nat) :
    (c.iadd amt).value = c.value + amt ∧
    (c.iadd amt).added = (c.added || decide (c.value ≠ 0 ∧ amt ≠ 0)) ∧
    (c.iadd amt).moved = true ∧
    (c.iadd amt).new = c.new := by
  unfold Cell.iadd
  refine ⟨rfl, ?_, rfl, rfl⟩
  by_cases h : c.value ≠ 0 ∧ amt ≠ 0 <;> simp [h]

/-- C5: on a rectangular grid of positive width, rotating clockwise then
counter-clockwise (and vice versa) is the identity, and four clockwise
rotations are the identity. -/

theorem c5_rotation_round_trips (g : List (List Cell)) (w : Nat)
    (hrect : Rect g w) (hw : 0 < w) :
    rotate_ccw (rotate_cw g) = g ∧
    rotate_cw (rotate_ccw g) = g ∧
    (0 < g.length → rotate_cw (rotate_cw (rotate_cw (rotate_cw g))) = g) := by
  exact ⟨rotate_ccw_rotate_cw g w hrect hw, rotate_cw_rotate_ccw g w hrect hw,
    fun hh => rotate_cw_four g w hrect hw hh⟩

/-- Witness for C5 on a concrete 2×2 grid. -/

theorem c5_rotation_round_trips_witness :
    rotate_ccw (rotate_cw [[cv 2, cv 4], [cv 8, cv 16]]) = [[cv 2, cv 4], [cv 8, cv 16]] ∧
    rotate_cw (rotate_ccw [[cv 2, cv 4], [cv 8, cv 16]]) = [[cv 2, cv 4], [cv 8, cv 16]] ∧
    (0 < ([[cv 2, cv 4], [cv 8, cv 16]] : List (List Cell)).length →
      rotate_cw (rotate_cw (rotate_cw (rotate_cw [[cv 2, cv 4], [cv 8, cv 16]]))) =
        [[cv 2, cv 4], [cv 8, cv 16]]) :=
  c5_rotation_round_trips [[cv 2, cv 4], [cv 8, cv 16]] 2
    (by unfold Rect; decide)
    (by decide)

theorem phase_row_2220 (s : Nat) :
    move_phase ⟨4, 1, [[cv 2, cv 2, cv 2, cv 0]], s⟩ Direction.RIGHT =
      some ⟨4, 1, [[cv 0, cv 0, ⟨2, false, true, false⟩, ⟨4, true, true, false⟩]], s + 4⟩ := by
  simp [move_phase, move_all_rows, move_row_pass, move_cell_to_right,
    prepare_cells_to_move, rot_forward, rot_backward, Cell.iadd, cv,
    List.range_succ, Cell.default_eq]

theorem phase_row_2244 (s : Nat) :
    move_phase ⟨4, 1, [[cv 2, cv 2, cv 4, cv 4]], s⟩ Direction.RIGHT =
      some ⟨4, 1, [[cv 0, cv 0, ⟨4, true, true, false⟩, ⟨8, true, true, false⟩]], s + 12⟩ := by
  simp [move_phase, move_all_rows, move_row_pass, move_cell_to_right,
    prepare_cells_to_move, rot_forward, rot_backward, Cell.iadd, cv,
    List.range_succ, Cell.default_eq]

/-- C2: moving RIGHT on the single-row grid `[2,2,2,0]` produces `[0,0,2,4]`
with exactly one merged cell and adds exactly 4 to the score; on `[2,2,4,4]`
it produces `[0,0,4,8]` with exactly two merged cells and adds exactly 12;
the subsequent spawn never changes the score. -/

theorem c2_rows_2220_and_2244 (s : Nat) :
    (move_phase ⟨4, 1, [[cv 2, cv 2, cv 2, cv 0]], s⟩ Direction.RIGHT =
      some ⟨4, 1, [[cv 0, cv 0, ⟨2, false, true, false⟩, ⟨4, true, true, false⟩]], s + 4⟩) ∧
    addedCount [cv 0, cv 0, ⟨2, false, true, false⟩, ⟨4, true, true, false⟩] = 1 ∧
    (∀ pick four,
      (move ⟨4, 1, [[cv 2, cv 2, cv 2, cv 0]], s⟩ Direction.RIGHT pick four).map
        Matrix.score = some (s + 4)) ∧
    (move_phase ⟨4, 1, [[cv 2, cv 2, cv 4, cv 4]], s⟩ Direction.RIGHT =
      some ⟨4, 1, [[cv 0, cv 0, ⟨4, true, true, false⟩, ⟨8, true, true, false⟩]], s + 12⟩) ∧
    addedCount [cv 0, cv 0, ⟨4, true, true, false⟩, ⟨8, true, true, false⟩] = 2 ∧
    (∀ pick four,
      (move ⟨4, 1, [[cv 2, cv 2, cv 4, cv 4]], s⟩ Direction.RIGHT pick four).map
        Matrix.score = some (s + 12)) := by
  refine ⟨phase_row_2220 s, by decide, ?_, phase_row_2244 s, by decide, ?_⟩
  · intro pick four
    rw [move, phase_row_2220 s]
    dsimp only
    simp [apply_ite Matrix.score, add_new_value_score]
  · intro pick four
    rw [move, phase_row_2244 s]
    dsimp only
    simp [apply_ite Matrix.score, add_new_value_score]

theorem row_pass_noop (w : Nat) (row : List Cell) (hlen : row.length = w)
    (hnm : ¬ RowHasMove w row) :
    ∀ k s, k ≤ w → move_row_pass w ((List.range k).reverse) row s = some (row, s) := by
  intro k
  induction k with
  | zero => intro s _; simp [move_row_pass]
  | succ k ih =>
    intro s hk
    rw [List.range_succ, List.reverse_append]
    simp only [List.reverse_singleton, List.singleton_append]
    rw [move_row_pass, getElem?_eq_some_cellD row k (by omega)]
    dsimp only
    by_cases hskip : (cellD row k).value = 0 ∨ w - 1 ≤ k
    · rw [if_pos hskip]
      exact ih s (by omega)
    · rw [if_neg hskip]
      push_neg at hskip
      obtain ⟨hnz, hklt⟩ := hskip
      rw [mctr_blocked w k row s (by omega) ?_]
      · dsimp only
        exact ih s (by omega)
      · intro hcon
        apply hnm
        refine ⟨k, List.mem_range.mpr (by omega), by omega, hnz, ?_⟩
        rcases hcon with h0 | ⟨_, _, heq⟩
        · exact Or.inl h0
        · exact Or.inr heq

theorem all_rows_noop (w : Nat) (ys : List Nat) :
    ∀ (g : List (List Cell)) (s : Nat), (∀ y ∈ ys, y < g.length) → Rect g w →
    (∀ r ∈ g, ¬ RowHasMove w r) →
    move_all_rows w ys g s = some (g, s) := by
  induction ys with
  | nil => intro g s _ _ _; rfl
  | cons y ys ih =>
    intro g s hb hrect hnm
    have hy : y < g.length := hb y (by simp)
    obtain ⟨row, hrow⟩ : ∃ r, g[y]? = some r := ⟨_, List.getElem?_eq_getElem hy⟩
    have hrmem : row ∈ g := List.getElem?_mem hrow
    rw [move_all_rows, hrow]
    dsimp only
    rw [row_pass_noop w row (hrect row hrmem) (hnm row hrmem) w s (Nat.le_refl w)]
    dsimp only
    rw [set_self_of_getElem? g y row hrow]
    exact ih g s (fun y' hy' => hb y' (by simp [hy'])) hrect hnm

/-- C3: when no tile can legally shift or merge in the chosen direction,
`move` returns normally, every cell's value and the score are unchanged,
and no tile is spawned (no cell carries the `new` flag): the only effect is
that all per-move flags are cleared. -/

theorem c3_ineffective_move_is_silent_noop (m : Matrix) (d : Direction)
    (pick : Nat) (four : Bool) (hWF : WF m) (hw : 0 < m.width) (hh : 0 < m.height)
    (hd : m.width = m.height ∨ d = Direction.LEFT ∨ d = Direction.RIGHT)
    (hnm : ¬ CanMove m d) :
    move m d pick four = some { m with matrix := prepare_cells_to_move m.matrix } ∧
    ({ m with matrix := prepare_cells_to_move m.matrix } : Matrix).score = m.score ∧
    (prepare_cells_to_move m.matrix).map (List.map Cell.value) =
      m.matrix.map (List.map Cell.value) ∧
    (∀ c ∈ (prepare_cells_to_move m.matrix).flatten, c.new = false) := by
  obtain ⟨hlenM, hrectM⟩ := hWF
  have hne : m.matrix ≠ [] := List.length_pos.mp (by omega)
  have hPrect : Rect (prepare_cells_to_move m.matrix) m.width :=
    prepare_rect m.matrix m.width hrectM
  have hPne : prepare_cells_to_move m.matrix ≠ [] := by
    apply List.length_pos.mp
    rw [prepare_length]
    omega
  have hdP : m.width = (prepare_cells_to_move m.matrix).length ∨
      d = Direction.LEFT ∨ d = Direction.RIGHT := by
    rw [prepare_length]
    rcases hd with h | h | h
    · left; omega
    · right; left; exact h
    · right; right; exact h
  obtain ⟨hg₁len, hg₁rect⟩ := rot_forward_dims d (prepare_cells_to_move m.matrix)
    m.width hPrect hPne hw hdP
  have hnorow : ∀ r ∈ rot_forward d (prepare_cells_to_move m.matrix),
      ¬ RowHasMove m.width r := by
    intro r hr hmv
    exact hnm ⟨r, hr, hmv⟩
  have heval := all_rows_noop m.width (List.range m.height)
    (rot_forward d (prepare_cells_to_move m.matrix)) m.score
    (by
      intro y hy
      rw [List.mem_range] at hy
      rw [hg₁len, prepare_length]
      omega)
    hg₁rect hnorow
  have hrt := rot_backward_rot_forward d (prepare_cells_to_move m.matrix) m.width
    hPrect hw (by rw [prepare_length]; omega)
  have hphase : move_phase m d =
      some { m with matrix := prepare_cells_to_move m.matrix, score := m.score } := by
    unfold move_phase
    dsimp only
    rw [heval]
    dsimp only
    rw [hrt]
  have hmvP : has_moved
      { m with matrix := prepare_cells_to_move m.matrix, score := m.score } =
      rowMoved (prepare_cells_to_move m.matrix).flatten :=
    has_moved_eq_rowMoved_flatten _
  refine ⟨?_, rfl, prepare_values m.matrix, ?_⟩
  · rw [move, hphase]
    dsimp only
    rw [hmvP, prepare_rowMoved]
    rw [if_neg Bool.false_ne_true]
  · intro c hc
    exact (prepare_cells_clear m.matrix c hc).2.2

theorem cellAt?_eq (m : Matrix) (x y : Nat) (hrect : Rect m.matrix m.width)
    (hlen : m.matrix.length = m.height) :
    cellAt? m.matrix x y =
      if y < m.height ∧ x < m.width then some (getD2 m.matrix y x) else none := by
  unfold cellAt?
  by_cases hy : y < m.height
  · obtain ⟨row, hrow⟩ : ∃ r, m.matrix[y]? = some r :=
      ⟨_, List.getElem?_eq_getElem (by omega)⟩
    have hrl : row.length = m.width := hrect row (List.getElem?_mem hrow)
    rw [hrow]
    by_cases hx : x < m.width
    · rw [if_pos ⟨hy, hx⟩]
      obtain ⟨c, hc⟩ : ∃ c, row[x]? = some c :=
        ⟨_, List.getElem?_eq_getElem (by omega)⟩
      rw [Option.some_bind, hc, getD2_eq_of_getElem? m.matrix y x row c hrow hc]
    · rw [if_neg (by tauto), Option.some_bind, List.getElem?_eq_none (by omega)]
  · rw [List.getElem?_eq_none (by omega), if_neg (by tauto)]
    rfl

theorem get_neighbors_eq (m : Matrix) (x y : Nat) (hrect : Rect m.matrix m.width)
    (hlen : m.matrix.length = m.height) (hx : x < m.width) (hy : y < m.height) :
    get_neighbors m x y = some (neighborVals m x y) := by
  unfold get_neighbors neighborVals
  simp only [cellAt?_eq m _ _ hrect hlen]
  by_cases h0 : 0 < y <;> by_cases h1 : y < m.height - 1 <;>
    by_cases h2 : x < m.width - 1 <;> by_cases h3 : 0 < x <;>
    simp [h0, h1, h2, h3] <;>
    first
      | rfl
      | (rw [if_pos (by omega)]; rfl)
      | (rw [if_pos (by omega), if_pos (by omega)]; rfl)
      | (rw [if_pos (by omega), if_pos (by omega), if_pos (by omega)]; rfl)
      | (rw [if_pos (by omega), if_pos (by omega), if_pos (by omega),
          if_pos (by omega)]; rfl)

theorem getD2_mem_flatten (m : Matrix) (x y : Nat) (hrect : Rect m.matrix m.width)
    (hlen : m.matrix.length = m.height) (hx : x < m.width) (hy : y < m.height) :
    getD2 m.matrix y x ∈ m.matrix.flatten := by
  obtain ⟨row, hrow⟩ : ∃ r, m.matrix[y]? = some r :=
    ⟨_, List.getElem?_eq_getElem (by omega)⟩
  have hrl : row.length = m.width := hrect row (List.getElem?_mem hrow)
  obtain ⟨c, hc⟩ : ∃ c, row[x]? = some c :=
    ⟨_, List.getElem?_eq_getElem (by omega)⟩
  rw [getD2_eq_of_getElem? m.matrix y x row c hrow hc]
  exact List.mem_flatten.mpr ⟨row, List.getElem?_mem hrow, List.getElem?_mem hc⟩

theorem is_full_loop_spec (m : Matrix) (hrect : Rect m.matrix m.width)
    (hlen : m.matrix.length = m.height)
    (hnz : ∀ c ∈ m.matrix.flatten, c.value ≠ 0) :
    ∀ L : List (Nat × Nat), (∀ p ∈ L, p.1 < m.width ∧ p.2 < m.height) →
      (is_full_loop m L).isSome ∧
      (is_full_loop m L = some true ↔
        ∀ p ∈ L, (getD2 m.matrix p.2 p.1).value ∉ neighborVals m p.1 p.2) := by
  intro L
  induction L with
  | nil =>
    intro _
    exact ⟨rfl, by simp [is_full_loop]⟩
  | cons p rest ih =>
    intro hb
    obtain ⟨hx, hy⟩ := hb p (by simp)
    rcases p with ⟨x, y⟩
    rw [is_full_loop, cellAt?_eq m x y hrect hlen, if_pos ⟨hy, hx⟩]
    dsimp only
    have hcnz : (getD2 m.matrix y x).value ≠ 0 :=
      hnz _ (getD2_mem_flatten m x y hrect hlen hx hy)
    rw [if_neg hcnz, get_neighbors_eq m x y hrect hlen hx hy]
    dsimp only
    by_cases hmem : (getD2 m.matrix y x).value ∈ neighborVals m x y
    · rw [if_pos hmem]
      refine ⟨rfl, ⟨fun h => absurd h (by simp), fun hall => ?_⟩⟩
      exact absurd hmem (hall (x, y) (by simp))
    · rw [if_neg hmem]
      obtain ⟨ihS, ihIff⟩ := ih (fun q hq => hb q (by simp [hq]))
      refine ⟨ihS, ?_⟩
      rw [ihIff]
      constructor
      · intro hall q hq
        rcases List.mem_cons.mp hq with hq1 | hq2
        · rw [hq1]
          exact hmem
        · exact hall q hq2
      · intro hall q hq
        exact hall q (List.mem_cons_of_mem _ hq)

theorem mem_allCoords (m : Matrix) (p : Nat × Nat) :
    p ∈ (List.range m.height).flatMap
      (fun y => (List.range m.width).map (fun x => (x, y))) ↔
    p.1 < m.width ∧ p.2 < m.height := by
  rw [List.mem_flatMap]
  constructor
  · rintro ⟨y, hy, hmem⟩
    rw [List.mem_map] at hmem
    obtain ⟨x, hxx, rfl⟩ := hmem
    rw [List.mem_range] at hy hxx
    exact ⟨hxx, hy⟩
  · rintro ⟨h1, h2⟩
    refine ⟨p.2, List.mem_range.mpr h2, ?_⟩
    rw [List.mem_map]
    exact ⟨p.1, List.mem_range.mpr h1, rfl⟩

/-- C6: on a well-formed matrix, `is_full` returns `true` exactly when the
grid has no empty cell and no cell's value equals any of its in-range
up/down/left/right neighbours (out-of-bounds neighbours count as 0, which
never equals a non-zero value). -/

theorem c6_is_full_iff_terminal (m : Matrix) (hWF : WF m) :
    is_full m = some true ↔ TerminalSpec m := by
  obtain ⟨hlen, hrect⟩ := hWF
  unfold is_full
  by_cases hfree : (find_value m 0).isEmpty
  · rw [if_pos hfree]
    have hnz : ∀ c ∈ m.matrix.flatten, c.value ≠ 0 := by
      have := (find_value_eq_nil_iff m 0).mp (List.isEmpty_iff.mp hfree)
      exact this
    obtain ⟨_, hiff⟩ := is_full_loop_spec m hrect hlen hnz _
      (fun p hp => (mem_allCoords m p).mp hp)
    rw [hiff]
    constructor
    · intro hall
      refine ⟨hnz, ?_⟩
      intro y hy x hx
      have h := hall (x, y) ((mem_allCoords m (x, y)).mpr ⟨hx, hy⟩)
      simp only [neighborVals, List.mem_cons, List.not_mem_nil, or_false] at h
      push_neg at h
      obtain ⟨h0, h1, h2, h3⟩ := h
      constructor
      · intro hy1
        rw [if_pos (by omega)] at h1
        exact h1
      · intro hx1
        rw [if_pos (by omega)] at h2
        exact h2
    · rintro ⟨h1, h2⟩ p hp
      obtain ⟨hx, hy⟩ := (mem_allCoords m p).mp hp
      rcases p with ⟨x, y⟩
      intro hmem
      have hvnz : (getD2 m.matrix y x).value ≠ 0 :=
        h1 _ (getD2_mem_flatten m x y hrect hlen hx hy)
      simp only [neighborVals, List.mem_cons, List.not_mem_nil, or_false] at hmem
      rcases hmem with h | h | h | h
      · by_cases h0 : 0 < y
        · rw [if_pos h0] at h
          have := (h2 (y - 1) (by omega) x hx).1 (by omega)
          rw [show y - 1 + 1 = y from by omega] at this
          exact this h.symm
        · rw [if_neg h0] at h
          exact hvnz h
      · by_cases h0 : y < m.height - 1
        · rw [if_pos h0] at h
          exact (h2 y hy x hx).1 (by omega) h
        · rw [if_neg h0] at h
          exact hvnz h
      · by_cases h0 : x < m.width - 1
        · rw [if_pos h0] at h
          exact (h2 y hy x hx).2 (by omega) h
        · rw [if_neg h0] at h
          exact hvnz h
      · by_cases h0 : 0 < x
        · rw [if_pos h0] at h
          have := (h2 y hy (x - 1) (by omega)).2 (by omega)
          rw [show x - 1 + 1 = x from by omega] at this
          exact this h.symm
        · rw [if_neg h0] at h
          exact hvnz h
  · rw [if_neg hfree]
    constructor
    · intro h
      simp at h
    · rintro ⟨h1, _⟩
      exfalso
      have hne : find_value m 0 ≠ [] := by
        intro hn
        rw [hn] at hfree
        simp at hfree
      obtain ⟨xy, hxy⟩ := List.exists_mem_of_ne_nil _ hne
      obtain ⟨row, c, hrow, hc, hv⟩ := find_value_mem m 0 xy hxy
      have hcfl : c ∈ m.matrix.flatten :=
        List.mem_flatten.mpr ⟨row, List.getElem?_mem hrow, List.getElem?_mem hc⟩
      exact h1 c hcfl hv

theorem c6_is_full_iff_terminal_witness :
    is_full ⟨2, 2, [[cv 2, cv 4], [cv 4, cv 2]], 0⟩ = some true :=
  (c6_is_full_iff_terminal ⟨2, 2, [[cv 2, cv 4], [cv 4, cv 2]], 0⟩
      (by unfold WF Rect; decide)).mpr
    (by unfold TerminalSpec; decide)

theorem c3_ineffective_move_is_silent_noop_witness :
    move ⟨2, 2, [[cv 2, cv 4], [cv 4, cv 2]], 7⟩ Direction.RIGHT 0 false =
      some ⟨2, 2, prepare_cells_to_move [[cv 2, cv 4], [cv 4, cv 2]], 7⟩ :=
  (c3_ineffective_move_is_silent_noop ⟨2, 2, [[cv 2, cv 4], [cv 4, cv 2]], 7⟩
    Direction.RIGHT 0 false (by unfold WF Rect; decide) (by decide) (by decide)
    (Or.inl rfl) (by unfold CanMove RowHasMove; decide)).1

/-- C9 does not hold as stated: on a well-formed non-square grid (width 3,
height 2, every cell empty), `move UP` rotates the grid but keeps the old
`width`/`height`, and the row loop reads `matrix[y][x]` before any guard;
the read is out of range on the rotated grid and the move raises
`IndexError` (modelled as `none`). -/

theorem c9_nonsquare_up_raises :
    move ⟨3, 2, [[cv 0, cv 0, cv 0], [cv 0, cv 0, cv 0]], 0⟩ Direction.UP 0 false =
      none := by
  simp [move, move_phase, rot_forward, prepare_cells_to_move, rotate_cw, pyZip,
    move_all_rows, move_row_pass, cv, Cell.default_eq, List.range_succ]

/-- C9 (amended): over a well-formed grid of any positive width and height,
`move` completes without raising for every direction when the grid is
square, and for LEFT and RIGHT on any rectangle; `is_full` and
`get_neighbors` at in-range coordinates always complete without raising.
(`find_value`, the rotations, `prepare_cells_to_move`, `has_moved` and
`add_new_value` are total by construction.)  UP and DOWN on a non-square
grid are excluded: they raise, see the counterexample. -/

theorem c9_totality_on_square_and_lr (m : Matrix) (d : Direction)
    (pick : Nat) (four : Bool) (hWF : WF m) (hw : 0 < m.width)
    (hh : 0 < m.height)
    (hd : m.width = m.height ∨ d = Direction.LEFT ∨ d = Direction.RIGHT) :
    (move m d pick four).isSome ∧ (is_full m).isSome ∧
    (∀ x < m.width, ∀ y < m.height, (get_neighbors m x y).isSome) := by
  obtain ⟨hlen, hrect⟩ := hWF
  refine ⟨?_, ?_, ?_⟩
  · obtain ⟨m', hm', _⟩ := move_spec m d pick four ⟨hlen, hrect⟩ hw hh hd
    rw [hm']
    rfl
  · unfold is_full
    by_cases hfree : (find_value m 0).isEmpty
    · rw [if_pos hfree]
      have hnz : ∀ c ∈ m.matrix.flatten, c.value ≠ 0 :=
        (find_value_eq_nil_iff m 0).mp (List.isEmpty_iff.mp hfree)
      exact (is_full_loop_spec m hrect hlen hnz _
        (fun p hp => (mem_allCoords m p).mp hp)).1
    · rw [if_neg hfree]
      rfl
  · intro x hx y hy
    rw [get_neighbors_eq m x y hrect hlen hx hy]
    rfl

theorem c9_totality_witness :
    (move ⟨2, 2, [[cv 2, cv 0], [cv 0, cv 4]], 5⟩ Direction.UP 0 false).isSome =
      true :=
  (c9_totality_on_square_and_lr ⟨2, 2, [[cv 2, cv 0], [cv 0, cv 4]], 5⟩
    Direction.UP 0 false (by unfold WF Rect; decide) (by decide) (by decide)
    (Or.inl rfl)).1

/-- C7 does not hold as stated: the non-empty count CAN decrease.  Moving
RIGHT on the single-row grid `[2,2,4,4]` merges twice and spawns once:
4 non-empty cells before, 3 after. -/

theorem c7_nonempty_count_can_decrease :
    (move ⟨4, 1, [[cv 2, cv 2, cv 4, cv 4]], 0⟩ Direction.RIGHT 0 false).map
      (fun m => nzCount m.matrix.flatten) = some 3 ∧
    nzCount ([[cv 2, cv 2, cv 4, cv 4]] : List (List Cell)).flatten = 4 := by
  refine ⟨?_, by decide⟩
  rw [move, phase_row_2244 0]
  dsimp only
  decide

/-- C7 (amended): after a successful `move`, the non-empty count plus the
number of merges performed (cells carrying the `added` flag afterwards)
equals the non-empty count before plus 1 if anything moved (a spawn
occurred) and plus 0 otherwise; in particular it increases by at most one —
but it can decrease, by merges − 1. -/

theorem c7_nonempty_count_formula (m : Matrix) (d : Direction) (pick : Nat)
    (four : Bool) (hWF : WF m) (hw : 0 < m.width) (hh : 0 < m.height)
    (hd : m.width = m.height ∨ d = Direction.LEFT ∨ d = Direction.RIGHT) :
    ∃ m', move m d pick four = some m' ∧
      nzCount m'.matrix.flatten + addedCount m'.matrix.flatten =
        nzCount m.matrix.flatten + (if has_moved m' = true then 1 else 0) ∧
      nzCount m'.matrix.flatten ≤ nzCount m.matrix.flatten + 1 := by
  obtain ⟨m', hm', _, _, _, _, _, hcons, hle, _⟩ :=
    move_spec m d pick four hWF hw hh hd
  exact ⟨m', hm', hcons, hle⟩

theorem c7_nonempty_count_formula_witness :
    ∃ m', move ⟨4, 1, [[cv 2, cv 2, cv 2, cv 0]], 1⟩ Direction.RIGHT 1 true =
        some m' ∧
      nzCount m'.matrix.flatten + addedCount m'.matrix.flatten =
        nzCount ([[cv 2, cv 2, cv 2, cv 0]] : List (List Cell)).flatten +
          (if has_moved m' = true then 1 else 0) ∧
      nzCount m'.matrix.flatten ≤
        nzCount ([[cv 2, cv 2, cv 2, cv 0]] : List (List Cell)).flatten + 1 :=
  c7_nonempty_count_formula ⟨4, 1, [[cv 2, cv 2, cv 2, cv 0]], 1⟩
    Direction.RIGHT 1 true (by unfold WF Rect; decide) (by decide) (by decide)
    (Or.inr (Or.inr rfl))

theorem applyMoves_spec (ms : List (Direction × Nat × Bool)) :
    ∀ m : Matrix, WF m → 0 < m.width → 0 < m.height → m.width = m.height →
    ∃ m2, applyMoves m ms = some m2 ∧ m.score ≤ m2.score ∧ WF m2 ∧
      m2.width = m.width ∧ m2.height = m.height := by
  induction ms with
  | nil =>
    intro m h1 _ _ _
    exact ⟨m, rfl, Nat.le_refl _, h1, rfl, rfl⟩
  | cons t rest ih =>
    rintro m h1 h2 h3 h4
    obtain ⟨d, pick, four⟩ := t
    obtain ⟨m1, hm1, hwd, hht, hWF1, hsle, _, _, _, _⟩ :=
      move_spec m d pick four h1 h2 h3 (Or.inl h4)
    obtain ⟨m2, hm2, hs2, hWF2, hw2, hh2⟩ :=
      ih m1 hWF1 (by omega) (by omega) (by omega)
    refine ⟨m2, ?_, Nat.le_trans hsle hs2, hWF2, by omega, by omega⟩
    rw [applyMoves, hm1]
    exact hm2

/-- C8: on a well-formed square grid, each single `move` increases the
score by exactly the sum of the post-merge values of the cells merged
during that move (hence never decreases it), and across any sequence of
moves, under any spawn outcomes, the score is monotonically
non-decreasing. -/

theorem c8_score_monotone_and_exact (m : Matrix) (hWF : WF m)
    (hw : 0 < m.width) (hh : 0 < m.height) (hsq : m.width = m.height) :
    (∀ d pick four, ∃ m1, move m d pick four = some m1 ∧
      m.score ≤ m1.score ∧
      m1.score = m.score + sumAdded m1.matrix.flatten) ∧
    (∀ ms : List (Direction × Nat × Bool),
      ∃ m2, applyMoves m ms = some m2 ∧ m.score ≤ m2.score) := by
  constructor
  · intro d pick four
    obtain ⟨m1, hm1, _, _, _, hsle, hseq, _, _, _⟩ :=
      move_spec m d pick four hWF hw hh (Or.inl hsq)
    exact ⟨m1, hm1, hsle, hseq⟩
  · intro ms
    obtain ⟨m2, hm2, hs2, _, _, _⟩ := applyMoves_spec ms m hWF hw hh hsq
    exact ⟨m2, hm2, hs2⟩

theorem c8_score_monotone_witness :
    ∃ m2, applyMoves ⟨2, 2, [[cv 2, cv 0], [cv 0, cv 2]], 0⟩
        [(Direction.UP, 0, false), (Direction.LEFT, 1, true)] = some m2 ∧
      (0 : Nat) ≤ m2.score :=
  (c8_score_monotone_and_exact ⟨2, 2, [[cv 2, cv 0], [cv 0, cv 2]], 0⟩
    (by unfold WF Rect; decide) (by decide) (by decide) rfl).2
    [(Direction.UP, 0, false), (Direction.LEFT, 1, true)]

theorem goodVal_zero : GoodVal 0 := Or.inl rfl

theorem goodVal_two : GoodVal 2 := by
  unfold GoodVal
  decide

theorem goodVal_four : GoodVal 4 := by
  unfold GoodVal
  decide

theorem goodVal_double (v : Nat) (h : GoodVal v) (hnz : v ≠ 0) :
    GoodVal (v + v) := by
  rcases h with h0 | ⟨k, _, hk1, hkv⟩
  · exact absurd h0 hnz
  · subst hkv
    right
    have hlt : k + 1 < 2 ^ (k + 1) := Nat.lt_two_pow (k + 1)
    have hps : 2 ^ (k + 1) = 2 ^ k * 2 := pow_succ 2 k
    refine ⟨k + 1, List.mem_range.mpr (by omega), by omega, by omega⟩

theorem mem_flatten_pyZip {α : Type} [Inhabited α] :
    ∀ (n : Nat) (ls : List (List α)), (ls.headD []).length ≤ n →
      ∀ c ∈ (pyZip ls).flatten, ∃ r ∈ ls, c ∈ r := by
  intro n
  induction n with
  | zero =>
    intro ls hlen c hc
    cases ls with
    | nil => simp [pyZip] at hc
    | cons a rest =>
      have ha : a = [] := List.length_eq_zero.mp (by simpa using hlen)
      subst ha
      rw [pyZip] at hc
      simp at hc
  | succ n ih =>
    intro ls hlen c hc
    cases ls with
    | nil => simp [pyZip] at hc
    | cons a rest =>
      rw [pyZip] at hc
      by_cases hall : ((a :: rest).all (fun l => !l.isEmpty)) = true
      · rw [dif_pos hall] at hc
        rw [List.flatten_cons, List.mem_append] at hc
        rcases hc with hc | hc
        · rw [List.mem_map] at hc
          obtain ⟨r, hr, rfl⟩ := hc
          refine ⟨r, hr, ?_⟩
          have hne := List.all_eq_true.mp hall r hr
          cases r with
          | nil => simp at hne
          | cons b bs => simp
        · have hane : a ≠ [] := by
            intro h0
            subst h0
            simp at hall
          have hlen' : (((a :: rest).map List.tail).headD []).length ≤ n := by
            cases a with
            | nil => exact absurd rfl hane
            | cons b bs =>
              simp only [List.map_cons, List.headD_cons, List.tail_cons]
              simp only [List.headD_cons, List.length_cons] at hlen
              omega
          obtain ⟨r, hr, hcr⟩ := ih ((a :: rest).map List.tail) hlen' c hc
          rw [List.mem_map] at hr
          obtain ⟨r₀, hr₀, rfl⟩ := hr
          exact ⟨r₀, hr₀, List.mem_of_mem_tail hcr⟩
      · rw [dif_neg hall] at hc
        simp at hc

theorem mem_flatten_rotate_cw (g : List (List Cell)) (c : Cell)
    (hc : c ∈ (rotate_cw g).flatten) : c ∈ g.flatten := by
  obtain ⟨r, hr, hcr⟩ :=
    mem_flatten_pyZip ((g.reverse.headD []).length) g.reverse (Nat.le_refl _) c hc
  exact List.mem_flatten.mpr ⟨r, List.mem_reverse.mp hr, hcr⟩

theorem mem_flatten_rotate_ccw (g : List (List Cell)) (c : Cell)
    (hc : c ∈ (rotate_ccw g).flatten) : c ∈ g.flatten := by
  unfold rotate_ccw at hc
  rw [List.mem_flatten] at hc
  obtain ⟨r, hr, hcr⟩ := hc
  rw [List.mem_reverse, List.mem_map] at hr
  obtain ⟨r₀, hr₀, rfl⟩ := hr
  rw [List.mem_reverse] at hcr
  obtain ⟨r₁, hr₁, hcr₁⟩ :=
    mem_flatten_pyZip ((g.reverse.headD []).length) g.reverse (Nat.le_refl _) c
      (List.mem_flatten.mpr ⟨r₀, hr₀, hcr⟩)
  exact List.mem_flatten.mpr ⟨r₁, List.mem_reverse.mp hr₁, hcr₁⟩

theorem mem_flatten_rot_forward (d : Direction) (g : List (List Cell)) (c : Cell)
    (hc : c ∈ (rot_forward d g).flatten) : c ∈ g.flatten := by
  cases d with
  | UP => exact mem_flatten_rotate_cw g c hc
  | DOWN => exact mem_flatten_rotate_ccw g c hc
  | LEFT => exact mem_flatten_rotate_cw g c (mem_flatten_rotate_cw (rotate_cw g) c hc)
  | RIGHT => exact hc

theorem mem_flatten_rot_backward (d : Direction) (g : List (List Cell)) (c : Cell)
    (hc : c ∈ (rot_backward d g).flatten) : c ∈ g.flatten := by
  cases d with
  | UP => exact mem_flatten_rotate_ccw g c hc
  | DOWN => exact mem_flatten_rotate_cw g c hc
  | LEFT => exact mem_flatten_rotate_ccw g c (mem_flatten_rotate_ccw (rotate_ccw g) c hc)
  | RIGHT => exact hc

theorem goodGrid_prepare (g : List (List Cell)) (h : GoodGrid g) :
    GoodGrid (prepare_cells_to_move g) := by
  intro c hc
  rw [List.mem_flatten] at hc
  obtain ⟨r, hr, hcr⟩ := hc
  unfold prepare_cells_to_move at hr
  rw [List.mem_map] at hr
  obtain ⟨r₀, hr₀, rfl⟩ := hr
  rw [List.mem_map] at hcr
  obtain ⟨c₀, hc₀, rfl⟩ := hcr
  exact h c₀ (List.mem_flatten.mpr ⟨r₀, hr₀, hc₀⟩)

theorem mctr_good (w : Nat) :
    ∀ (n x : Nat) (row : List Cell) (s : Nat) (row' : List Cell) (s' : Nat),
      w - 1 - x ≤ n →
      move_cell_to_right w x row s = some (row', s') →
      (∀ c ∈ row, GoodVal c.value) → ∀ c ∈ row', GoodVal c.value := by
  intro n
  induction n with
  | zero =>
    intro x row s row' s' hn hmc hgood
    rw [move_cell_to_right] at hmc
    cases h1 : row[x + 1]? with
    | none =>
      rw [h1] at hmc
      cases h2 : row[x]? <;> rw [h2] at hmc <;> exact absurd hmc (by simp)
    | some target =>
      cases h2 : row[x]? with
      | none =>
        rw [h1, h2] at hmc
        exact absurd hmc (by simp)
      | some src =>
        rw [h1, h2] at hmc
        dsimp only at hmc
        by_cases hg : target.value = 0 ∨
            (src.added = false ∧ target.added = false ∧ target.value = src.value)
        · rw [if_pos hg] at hmc
          rw [if_pos (by omega : w - 1 ≤ x + 1)] at hmc
          rw [Option.some.injEq, Prod.mk.injEq] at hmc
          obtain ⟨h3, _⟩ := hmc
          subst h3
          intro c hc
          rcases List.mem_or_eq_of_mem_set hc with hc1 | rfl
          · rcases List.mem_or_eq_of_mem_set hc1 with hc2 | rfl
            · exact hgood c hc2
            · show GoodVal (target.value + src.value)
              rcases hg with h0 | ⟨_, _, heq⟩
              · rw [h0, Nat.zero_add]
                exact hgood src (List.getElem?_mem h2)
              · rw [heq]
                by_cases hz : src.value = 0
                · rw [hz]
                  exact goodVal_zero
                · exact goodVal_double src.value (hgood src (List.getElem?_mem h2)) hz
          · exact goodVal_zero
        · rw [if_neg hg, Option.some.injEq, Prod.mk.injEq] at hmc
          obtain ⟨h3, _⟩ := hmc
          subst h3
          exact hgood
  | succ n ih =>
    intro x row s row' s' hn hmc hgood
    rw [move_cell_to_right] at hmc
    cases h1 : row[x + 1]? with
    | none =>
      rw [h1] at hmc
      cases h2 : row[x]? <;> rw [h2] at hmc <;> exact absurd hmc (by simp)
    | some target =>
      cases h2 : row[x]? with
      | none =>
        rw [h1, h2] at hmc
        exact absurd hmc (by simp)
      | some src =>
        rw [h1, h2] at hmc
        dsimp only at hmc
        by_cases hg : target.value = 0 ∨
            (src.added = false ∧ target.added = false ∧ target.value = src.value)
        · rw [if_pos hg] at hmc
          have hgood'' : ∀ c ∈ (row.set (x + 1) (target.iadd src.value)).set x default,
              GoodVal c.value := by
            intro c hc
            rcases List.mem_or_eq_of_mem_set hc with hc1 | rfl
            · rcases List.mem_or_eq_of_mem_set hc1 with hc2 | rfl
              · exact hgood c hc2
              · show GoodVal (target.value + src.value)
                rcases hg with h0 | ⟨_, _, heq⟩
                · rw [h0, Nat.zero_add]
                  exact hgood src (List.getElem?_mem h2)
                · rw [heq]
                  by_cases hz : src.value = 0
                  · rw [hz]
                    exact goodVal_zero
                  · exact goodVal_double src.value (hgood src (List.getElem?_mem h2)) hz
            · exact goodVal_zero
          by_cases hw1 : w - 1 ≤ x + 1
          · rw [if_pos hw1, Option.some.injEq, Prod.mk.injEq] at hmc
            obtain ⟨h3, _⟩ := hmc
            subst h3
            exact hgood''
          · rw [if_neg hw1] at hmc
            exact ih (x + 1) _ _ row' s' (by omega) hmc hgood''
        · rw [if_neg hg, Option.some.injEq, Prod.mk.injEq] at hmc
          obtain ⟨h3, _⟩ := hmc
          subst h3
          exact hgood

theorem row_pass_good (w : Nat) :
    ∀ (xs : List Nat) (row : List Cell) (s : Nat) (row' : List Cell) (s' : Nat),
      move_row_pass w xs row s = some (row', s') →
      (∀ c ∈ row, GoodVal c.value) → ∀ c ∈ row', GoodVal c.value := by
  intro xs
  induction xs with
  | nil =>
    intro row s row' s' h hg
    rw [move_row_pass, Option.some.injEq, Prod.mk.injEq] at h
    obtain ⟨h3, _⟩ := h
    subst h3
    exact hg
  | cons x xs ih =>
    intro row s row' s' h hg
    rw [move_row_pass] at h
    cases hrx : row[x]? with
    | none =>
      rw [hrx] at h
      exact absurd h (by simp)
    | some c =>
      rw [hrx] at h
      dsimp only at h
      by_cases hskip : c.value = 0 ∨ w - 1 ≤ x
      · rw [if_pos hskip] at h
        exact ih row s row' s' h hg
      · rw [if_neg hskip] at h
        cases hmc : move_cell_to_right w x row s with
        | none =>
          rw [hmc] at h
          exact absurd h (by simp)
        | some p =>
          rw [hmc] at h
          obtain ⟨row₁, s₁⟩ := p
          dsimp only at h
          exact ih row₁ s₁ row' s' h
            (mctr_good w (w - 1 - x) x row s row₁ s₁ (Nat.le_refl _) hmc hg)

theorem all_rows_good (w : Nat) :
    ∀ (ys : List Nat) (g : List (List Cell)) (s : Nat) (g' : List (List Cell)) (s' : Nat),
      move_all_rows w ys g s = some (g', s') →
      GoodGrid g → GoodGrid g' := by
  intro ys
  induction ys with
  | nil =>
    intro g s g' s' h hg
    rw [move_all_rows, Option.some.injEq, Prod.mk.injEq] at h
    obtain ⟨h3, _⟩ := h
    subst h3
    exact hg
  | cons y ys ih =>
    intro g s g' s' h hg
    rw [move_all_rows] at h
    cases hgy : g[y]? with
    | none =>
      rw [hgy] at h
      exact absurd h (by simp)
    | some row =>
      rw [hgy] at h
      dsimp only at h
      cases hrp : move_row_pass w ((List.range w).reverse) row s with
      | none =>
        rw [hrp] at h
        exact absurd h (by simp)
      | some p =>
        rw [hrp] at h
        obtain ⟨row', s₁⟩ := p
        dsimp only at h
        apply ih (g.set y row') s₁ g' s' h
        intro c hc
        rw [List.mem_flatten] at hc
        obtain ⟨r, hr, hcr⟩ := hc
        rcases List.mem_or_eq_of_mem_set hr with hr1 | hr1
        · exact hg c (List.mem_flatten.mpr ⟨r, hr1, hcr⟩)
        · subst hr1
          have hrowgood : ∀ c ∈ row, GoodVal c.value := fun c hc =>
            hg c (List.mem_flatten.mpr ⟨row, List.getElem?_mem hgy, hc⟩)
          exact row_pass_good w _ row s r s₁ hrp hrowgood c hcr

theorem mem_flatten_of_mem_getD (l : List (List Cell)) (n : Nat) (c : Cell)
    (hc : c ∈ l.getD n []) : c ∈ l.flatten := by
  rw [List.getD_eq_getElem?_getD] at hc
  cases h : l[n]? with
  | none =>
    rw [h] at hc
    simp at hc
  | some r =>
    rw [h] at hc
    exact List.mem_flatten.mpr ⟨r, List.getElem?_mem h, hc⟩

theorem add_new_good (m : Matrix) (pick : Nat) (four : Bool)
    (hg : GoodGrid m.matrix) : GoodGrid (add_new_value m pick four).matrix := by
  unfold add_new_value
  by_cases hfree : (find_value m 0).isEmpty
  · rw [if_pos hfree]
    exact hg
  · rw [if_neg hfree]
    intro c hc
    rw [List.mem_flatten] at hc
    obtain ⟨r, hr, hcr⟩ := hc
    rcases List.mem_or_eq_of_mem_set hr with hr1 | hr1
    · exact hg c (List.mem_flatten.mpr ⟨r, hr1, hcr⟩)
    · subst hr1
      rcases List.mem_or_eq_of_mem_set hcr with hc1 | hc1
      · exact hg c (mem_flatten_of_mem_getD m.matrix _ c hc1)
      · subst hc1
        show GoodVal (if four then 4 else 2)
        cases four with
        | false => exact goodVal_two
        | true => exact goodVal_four

theorem move_good (m m' : Matrix) (d : Direction) (pick : Nat) (four : Bool)
    (hmv : move m d pick four = some m') (hg : GoodGrid m.matrix) :
    GoodGrid m'.matrix := by
  rw [move] at hmv
  cases hph : move_phase m d with
  | none =>
    rw [hph] at hmv
    exact absurd hmv (by simp)
  | some m2 =>
    rw [hph] at hmv
    dsimp only at hmv
    rw [Option.some.injEq] at hmv
    have hg2 : GoodGrid m2.matrix := by
      unfold move_phase at hph
      dsimp only at hph
      cases har : move_all_rows m.width (List.range m.height)
          (rot_forward d (prepare_cells_to_move m.matrix)) m.score with
      | none =>
        rw [har] at hph
        exact absurd hph (by simp)
      | some p =>
        rw [har] at hph
        obtain ⟨g2, s2⟩ := p
        dsimp only at hph
        rw [Option.some.injEq] at hph
        subst hph
        intro c hc
        have hc2 : c ∈ g2.flatten := mem_flatten_rot_backward d g2 c hc
        exact all_rows_good m.width (List.range m.height) _ m.score g2 s2 har
          (fun c hc => goodGrid_prepare m.matrix hg c
            (mem_flatten_rot_forward d (prepare_cells_to_move m.matrix) c hc))
          c hc2
    subst hmv
    by_cases hmvd : has_moved m2 = true
    · rw [if_pos hmvd]
      exact add_new_good m2 pick four hg2
    · rw [if_neg hmvd]
      exact hg2

theorem init_good (w h p1 p2 : Nat) (f1 f2 : Bool) :
    GoodGrid (Matrix.init w h p1 p2 f1 f2).matrix := by
  unfold Matrix.init
  apply add_new_good
  apply add_new_good
  intro c hc
  rw [List.mem_flatten] at hc
  obtain ⟨r, hr, hcr⟩ := hc
  rw [List.eq_of_mem_replicate hr] at hcr
  rw [List.eq_of_mem_replicate hcr]
  exact goodVal_zero

/-- C10: in every state reachable from a freshly constructed grid by any
sequence of successful `move` calls, under every random spawn outcome,
every cell's value is 0 or a power of two that is at least 2. -/

theorem c10_reachable_values_powers_of_two (m : Matrix) (h : Reachable m) :
    GoodGrid m.matrix := by
  induction h with
  | init w h p1 p2 f1 f2 => exact init_good w h p1 p2 f1 f2
  | step m m' d pick four _ hmv ih => exact move_good m m' d pick four hmv ih

theorem c10_reachable_values_witness :
    GoodGrid (Matrix.init 4 4 0 5 false true).matrix :=
  c10_reachable_values_powers_of_two (Matrix.init 4 4 0 5 false true)
    (Reachable.init 4 4 0 5 false true)

/-- C1: every tile merges at most once per move.  (i) A step whose source
or target cell already carries the `added` (merged) flag refuses to
merge or move into a non-empty target: `move_cell_to_right` is the
identity, so a flagged cell neither absorbs nor is absorbed.  (ii) At any
point of the per-row pass (the row compacted and flagged only in the
already-processed region), every cell that carries the `added` flag is
left completely unchanged by the remainder of the pass.  (iii) On the row
`[2,2,2,0]` moving RIGHT only the two tiles nearest the wall merge: the
result is `[0,0,2,4]` with exactly one merged cell, and the leftover `2`
is unmerged. -/

theorem c1_merge_at_most_once :
    (∀ (w x : Nat) (row : List Cell) (s : Nat), x + 1 < row.length →
      (cellD row (x + 1)).value ≠ 0 →
      ((cellD row x).added = true ∨ (cellD row (x + 1)).added = true) →
      move_cell_to_right w x row s = some (row, s)) ∧
    (∀ (w k : Nat) (row : List Cell) (s : Nat), row.length = w → k ≤ w →
      Comp k row → FlagsIn k row →
      ∃ row' s', move_row_pass w ((List.range k).reverse) row s = some (row', s') ∧
        ∀ i, (cellD row i).added = true → cellD row' i = cellD row i) ∧
    (move_phase ⟨4, 1, [[cv 2, cv 2, cv 2, cv 0]], 0⟩ Direction.RIGHT =
      some ⟨4, 1, [[cv 0, cv 0, ⟨2, false, true, false⟩, ⟨4, true, true, false⟩]], 4⟩ ∧
      addedCount [cv 0, cv 0, ⟨2, false, true, false⟩, ⟨4, true, true, false⟩] = 1 ∧
      (cellD [cv 0, cv 0, ⟨2, false, true, false⟩, ⟨4, true, true, false⟩] 2).added
        = false) := by
  refine ⟨?_, ?_, phase_row_2220 0, by decide, by decide⟩
  · intro w x row s hx1 htnz hflag
    apply mctr_blocked w x row s hx1
    intro hG
    rcases hG with h0 | ⟨hsf, htf, _⟩
    · exact htnz h0
    · rcases hflag with h | h
      · rw [hsf] at h
        exact Bool.false_ne_true h
      · rw [htf] at h
        exact Bool.false_ne_true h
  · intro w k row s hlen hk hComp hFlags
    obtain ⟨row', s', heval, hp⟩ := row_pass_spec w k row s hlen hk hComp hFlags
    exact ⟨row', s', heval, hp.2.2.2.1⟩

theorem c1_merge_at_most_once_witness :
    move_cell_to_right 4 0 [cv 2, ⟨2, true, true, false⟩, cv 4, cv 8] 0 =
      some ([cv 2, ⟨2, true, true, false⟩, cv 4, cv 8], 0) :=
  c1_merge_at_most_once.1 4 0 [cv 2, ⟨2, true, true, false⟩, cv 4, cv 8] 0
    (by decide) (by decide) (Or.inr (by decide))

/-- C3 does not hold as stated over every grid state and direction: on the
all-zero well-formed 3×2 grid no tile can legally shift or merge in
direction UP, yet `move UP` is not a silent no-op — it raises `IndexError`
(modelled as `none`), because the rotation keeps the stale `width`/`height`
loop bounds and the row loop reads `matrix[y][x]` before its guard. -/
theorem c3_nonsquare_ineffective_move_raises :
    ¬ CanMove ⟨3, 2, [[cv 0, cv 0, cv 0], [cv 0, cv 0, cv 0]], 0⟩ Direction.UP ∧
    move ⟨3, 2, [[cv 0, cv 0, cv 0], [cv 0, cv 0, cv 0]], 0⟩ Direction.UP 1 true =
      none := by
  have hg : rot_forward Direction.UP
      (prepare_cells_to_move [[cv 0, cv 0, cv 0], [cv 0, cv 0, cv 0]]) =
      [[cv 0, cv 0], [cv 0, cv 0], [cv 0, cv 0]] := by
    simp [rot_forward, rotate_cw, prepare_cells_to_move, pyZip, cv]
  constructor
  · intro hcm
    unfold CanMove at hcm
    obtain ⟨row, hrow, hmv⟩ := hcm
    dsimp only at hrow hmv
    rw [hg] at hrow
    simp only [List.mem_cons, List.not_mem_nil, or_false] at hrow
    have hrow' : row = [cv 0, cv 0] := by
      rcases hrow with h | h | h <;> exact h
    subst hrow'
    exact absurd hmv (by unfold RowHasMove; decide)
  · simp [move, move_phase, rot_forward, prepare_cells_to_move, rotate_cw, pyZip,
      move_all_rows, move_row_pass, cv, Cell.default_eq, List.range_succ]

end G2048
